import Mathlib

/-!
Verification development for the JSBinder data-binding library
(`src/binder.js`).  The JavaScript value domain, the expression
tokenizer/parser/evaluator, the path resolver, the change detector and the
`data-each` list reconciler are shallowly embedded as executable Lean
definitions, translated from the source.  JavaScript numbers are modelled as
exact rationals extended with NaN and the two infinities (float rounding is
out of scope of the claims under verification); object/array equality is
structural in the model whereas JavaScript compares references (no claim
compares two objects).  JavaScript exceptions are modelled with `Except`.
-/

namespace JSBinder

/-- Exact rationals with explicit numerator and positive denominator, kept
unnormalised so that every arithmetic operation is plain structural
`Int`/`Nat` computation (Mathlib's `ℚ` normalises through `Nat.gcd`, which
the kernel cannot reduce definitionally).  Equality and order compare by
cross-multiplication, so the represented value is what matters. -/
structure JQ where
  num : Int
  den : Nat
deriving DecidableEq, Repr

def JQ.ofInt (i : Int) : JQ := ⟨i, 1⟩

def JQ.ofNat (n : Nat) : JQ := ⟨(n : Int), 1⟩

def natPowF (b : Nat) : Nat → Nat
  | 0 => 1
  | n + 1 => b * natPowF b n

def intPowF (b : Int) : Nat → Int
  | 0 => 1
  | n + 1 => b * intPowF b n

def jqAdd (a b : JQ) : JQ := ⟨a.num * (b.den : Int) + b.num * (a.den : Int), a.den * b.den⟩

def jqNeg (a : JQ) : JQ := ⟨-a.num, a.den⟩

def jqSub (a b : JQ) : JQ := jqAdd a (jqNeg b)

def jqMul (a b : JQ) : JQ := ⟨a.num * b.num, a.den * b.den⟩

/-- Reciprocal (callers guard against zero). -/
def jqInv (a : JQ) : JQ :=
  if a.num < 0 then ⟨-(a.den : Int), a.num.natAbs⟩ else ⟨(a.den : Int), a.num.natAbs⟩

def jqDiv (a b : JQ) : JQ := jqMul a (jqInv b)

def jqEq (a b : JQ) : Bool := a.num * (b.den : Int) == b.num * (a.den : Int)

def jqLt (a b : JQ) : Bool := a.num * (b.den : Int) < b.num * (a.den : Int)

def jqIsZero (a : JQ) : Bool := a.num == 0

def jqIsNeg (a : JQ) : Bool := a.num < 0

def jqIsPos (a : JQ) : Bool := 0 < a.num

def jqCompare (a b : JQ) : Ordering :=
  if jqLt a b then .lt else if jqEq a b then .eq else .gt

/-- Truncation toward zero (`Int.tdiv` is T-division). -/
def jqTrunc (a : JQ) : Int := Int.tdiv a.num (a.den : Int)

def jqPowNat (a : JQ) (n : Nat) : JQ := ⟨intPowF a.num n, natPowF a.den n⟩

/-- Does the rational denote an integer? -/
def jqIsInt (a : JQ) : Bool := Int.emod a.num (a.den : Int) == 0

/-- The denoted integer of an integral rational. -/
def jqToIntExact (a : JQ) : Int := Int.tdiv a.num (a.den : Int)

/-- `|a| < 1`. -/
def jqAbsLtOne (a : JQ) : Bool := a.num.natAbs < a.den

/-- Euclid's algorithm with structural fuel (`a + b + 1` steps suffice). -/
def natGcdAux : Nat → Nat → Nat → Nat
  | 0, _, b => b
  | f + 1, a, b => if a = 0 then b else natGcdAux f (b % a) a

def natGcd (a b : Nat) : Nat := natGcdAux (a + b + 1) a b

/-- JavaScript number: a finite value (exact rational), NaN, or ±Infinity. -/
inductive JNum where
  | fin (q : JQ)
  | nan
  | inf
  | neginf
deriving DecidableEq, Repr

/-- JavaScript values, as plain data: `undefined`, `null`, booleans, numbers,
strings, plain objects (ordered field lists) and arrays. -/
inductive JSVal where
  | undef
  | null
  | bool (b : Bool)
  | num (n : JNum)
  | str (s : String)
  | obj (fs : List (String × JSVal))
  | arr (es : List JSVal)
deriving Repr, Inhabited

/-- Throwing JavaScript code is modelled with `Except JErr`. -/
inductive JErr where
  | typeError (msg : String)
  | error (msg : String)
  | outOfFuel
deriving DecidableEq, Repr

abbrev JRes (α : Type) := Except JErr α

/-- The apostrophe character (singled out to keep quote characters out of
character literals). -/
def quoteChar1 : Char := Char.ofNat 39

/-- The double-quote character. -/
def quoteChar2 : Char := Char.ofNat 34

/-- The opening-brace character. -/
def lbrace : Char := Char.ofNat 123

/-- The closing-brace character. -/
def rbrace : Char := Char.ofNat 125

def isDigitChar (c : Char) : Bool := (48 ≤ c.toNat && c.toNat ≤ 57)

def isAsciiAlpha (c : Char) : Bool :=
  (65 ≤ c.toNat && c.toNat ≤ 90) || (97 ≤ c.toNat && c.toNat ≤ 122)

/-- `[a-zA-Z0-9]` of the key-sanitizing regex in `#eachDirective.refresh`. -/
def isAlnumChar (c : Char) : Bool := isAsciiAlpha c || isDigitChar c

/-- `[a-zA-Z0-9_]` (identifier / index-placeholder characters). -/
def isWordChar (c : Char) : Bool := isAlnumChar c || c = '_'

/-- Numeric value of a list of decimal digit characters. -/
def digitsToNat (ds : List Char) : Nat := ds.foldl (fun n c => n * 10 + (c.toNat - 48)) 0

/-- `String.prototype.trim` on a character list. -/
def trimL (cs : List Char) : List Char :=
  ((cs.dropWhile Char.isWhitespace).reverse.dropWhile Char.isWhitespace).reverse

/-- `String.prototype.trim`. -/
def trimStr (s : String) : String := String.mk (trimL s.toList)

/-- Code-unit lexicographic comparison (JavaScript `<` on two strings). -/
def charListCompare : List Char → List Char → Ordering
  | [], [] => .eq
  | [], _ :: _ => .lt
  | _ :: _, [] => .gt
  | a :: as, b :: bs =>
      if a.toNat < b.toNat then .lt
      else if b.toNat < a.toNat then .gt
      else charListCompare as bs

/-- Digits of a natural number, most significant first. -/
def natDigits (n : Nat) : List Char :=
  (Nat.toDigits 10 n)

/-- Decimal rendering of an integer, as JavaScript renders integral numbers. -/
def intToString (i : Int) : String :=
  if i < 0 then "-" ++ String.mk (natDigits i.natAbs) else String.mk (natDigits i.natAbs)

/-- Smallest `k ≤ 30` such that `q * 10^k` is integral, if any. -/
def decExponent (q : JQ) : Option Nat :=
  (List.range 31).find? (fun k => jqIsInt ⟨q.num * intPowF 10 k, q.den⟩)

/-- Decimal rendering of a finite JavaScript number.  Terminating decimals are
rendered exactly (`3/2 ↦ "1.5"`); the claims never stringify a
non-terminating rational, for which a fraction fallback is produced. -/
def ratToString (q : JQ) : String :=
  let g := natGcd q.num.natAbs q.den
  let nn : Int := Int.tdiv q.num (g : Int)
  let dd : Nat := q.den / g
  if dd = 1 then intToString nn
  else
    match decExponent ⟨nn, dd⟩ with
    | some k =>
        let scaled : Int := Int.tdiv (nn * intPowF 10 k) (dd : Int)
        let ds := natDigits scaled.natAbs
        let ds := if ds.length ≤ k then List.replicate (k + 1 - ds.length) '0' ++ ds else ds
        let point := ds.length - k
        (if nn < 0 then "-" else "") ++ String.mk (ds.take point) ++ "." ++ String.mk (ds.drop point)
    | none => intToString nn ++ "/" ++ intToString (dd : Int)

/-- `Number.prototype.toString` on the modelled number domain. -/
def jnumToString : JNum → String
  | .fin q => ratToString q
  | .nan => "NaN"
  | .inf => "Infinity"
  | .neginf => "-Infinity"

mutual

/-- JavaScript `ToString` on the modelled values (arrays join their elements
with commas, plain objects print as `[object Object]`). -/
def jsToString : JSVal → String
  | .undef => "undefined"
  | .null => "null"
  | .bool b => if b then "true" else "false"
  | .num n => jnumToString n
  | .str s => s
  | .obj _ => "[object Object]"
  | .arr es => jsToStringList es

def jsToStringList : List JSVal → String
  | [] => ""
  | [e] => jsToString e
  | e :: rest => jsToString e ++ "," ++ jsToStringList rest

end

/-- Parse an optionally signed decimal literal (`-?\d+(\.\d+)?`) written over
the whole character list; used for `ToNumber` of strings. -/
def parseDecimal (cs : List Char) : Option JQ :=
  let core (ds : List Char) : Option JQ :=
    let intPart := ds.takeWhile isDigitChar
    let rest := ds.dropWhile isDigitChar
    if intPart.isEmpty then none
    else
      let iv : Nat := digitsToNat intPart
      match rest with
      | [] => some (JQ.ofNat iv)
      | '.' :: frac =>
          if frac.isEmpty || frac.any (fun c => ¬ isDigitChar c) then none
          else some ⟨(iv * natPowF 10 frac.length + digitsToNat frac : Nat), natPowF 10 frac.length⟩
      | _ => none
  match cs with
  | '-' :: rest => (core rest).map jqNeg
  | '+' :: rest => core rest
  | _ => core cs

/-- JavaScript `ToNumber` of a string: trimmed, empty ↦ 0, decimal literals
and `Infinity` forms, anything else NaN. -/
def strToNumber (s : String) : JNum :=
  let t := trimStr s
  if t = "" then .fin (JQ.ofNat 0)
  else if t = "Infinity" || t = "+Infinity" then .inf
  else if t = "-Infinity" then .neginf
  else
    match parseDecimal t.toList with
    | some q => .fin q
    | none => .nan

/-- JavaScript `ToNumber` (objects and arrays go through `ToString` first,
matching the default `ToPrimitive` on plain data). -/
def jsToNumber : JSVal → JNum
  | .undef => .nan
  | .null => .fin (JQ.ofNat 0)
  | .bool b => .fin (JQ.ofNat (if b then 1 else 0))
  | .num n => n
  | .str s => strToNumber s
  | .obj fs => strToNumber (jsToString (.obj fs))
  | .arr es => strToNumber (jsToString (.arr es))

/-- JavaScript truthiness. -/
def jsTruthy : JSVal → Bool
  | .undef => false
  | .null => false
  | .bool b => b
  | .num (.fin q) => ! jqIsZero q
  | .num .nan => false
  | .num _ => true
  | .str s => s ≠ ""
  | .obj _ => true
  | .arr _ => true

/-- Addition on the number domain. -/
def jnumAdd : JNum → JNum → JNum
  | .fin a, .fin b => .fin (jqAdd a b)
  | .nan, _ => .nan
  | _, .nan => .nan
  | .inf, .neginf => .nan
  | .neginf, .inf => .nan
  | .inf, _ => .inf
  | _, .inf => .inf
  | .neginf, _ => .neginf
  | _, .neginf => .neginf

def jnumNeg : JNum → JNum
  | .fin a => .fin (jqNeg a)
  | .nan => .nan
  | .inf => .neginf
  | .neginf => .inf

def jnumSub (a b : JNum) : JNum := jnumAdd a (jnumNeg b)

def jnumMul : JNum → JNum → JNum
  | .fin a, .fin b => .fin (jqMul a b)
  | .nan, _ => .nan
  | _, .nan => .nan
  | .inf, .fin b => if jqIsZero b then .nan else if jqIsPos b then .inf else .neginf
  | .fin a, .inf => if jqIsZero a then .nan else if jqIsPos a then .inf else .neginf
  | .neginf, .fin b => if jqIsZero b then .nan else if jqIsPos b then .neginf else .inf
  | .fin a, .neginf => if jqIsZero a then .nan else if jqIsPos a then .neginf else .inf
  | .inf, .inf => .inf
  | .inf, .neginf => .neginf
  | .neginf, .inf => .neginf
  | .neginf, .neginf => .inf

/-- Division.  Finite nonzero quotients are exact rationals in the model
(JavaScript rounds to binary floating point; no claim divides). -/
def jnumDiv : JNum → JNum → JNum
  | .fin a, .fin b =>
      if jqIsZero b then (if jqIsZero a then .nan else if jqIsPos a then .inf else .neginf)
      else .fin (jqDiv a b)
  | .nan, _ => .nan
  | _, .nan => .nan
  | .inf, .inf => .nan
  | .inf, .neginf => .nan
  | .neginf, .inf => .nan
  | .neginf, .neginf => .nan
  | .inf, .fin b => if ! jqIsNeg b then .inf else .neginf
  | .neginf, .fin b => if ! jqIsNeg b then .neginf else .inf
  | .fin _, .inf => .fin (JQ.ofNat 0)
  | .fin _, .neginf => .fin (JQ.ofNat 0)

/-- JavaScript `%` (remainder with the sign of the dividend). -/
def jnumMod : JNum → JNum → JNum
  | .fin a, .fin b =>
      if jqIsZero b then .nan
      else .fin (jqSub a (jqMul b (JQ.ofInt (jqTrunc (jqDiv a b)))))
  | .fin a, .inf => .fin a
  | .fin a, .neginf => .fin a
  | _, _ => .nan

/-- JavaScript `**` on the model: integral exponents are exact; a fractional
exponent (never produced by the claims) is approximated as NaN. -/
def jnumPow : JNum → JNum → JNum
  | a, .fin e =>
      if jqIsZero e then .fin (JQ.ofNat 1)
      else match a with
        | .fin b =>
            if jqIsInt e then
              let en := jqToIntExact e
              if 0 ≤ en then .fin (jqPowNat b en.natAbs)
              else if jqIsZero b then .inf
              else .fin (jqPowNat (jqInv b) en.natAbs)
            else .nan
        | .nan => .nan
        | .inf => if jqIsPos e then .inf else .fin (JQ.ofNat 0)
        | .neginf =>
            if jqIsPos e then
              (if jqIsInt e && (jqToIntExact e).natAbs % 2 = 1 then .neginf else .inf)
            else .fin (JQ.ofNat 0)
  | .nan, .nan => .nan
  | .nan, .inf => .nan
  | .nan, .neginf => .nan
  | .inf, .nan => .nan
  | .neginf, .nan => .nan
  | .fin _, .nan => .nan
  | .fin b, .inf =>
      if jqEq b (JQ.ofInt 1) || jqEq b (JQ.ofInt (-1)) then .nan
      else if jqAbsLtOne b then .fin (JQ.ofNat 0) else .inf
  | .fin b, .neginf =>
      if jqEq b (JQ.ofInt 1) || jqEq b (JQ.ofInt (-1)) then .nan
      else if jqAbsLtOne b then .inf else .fin (JQ.ofNat 0)
  | .inf, .inf => .inf
  | .inf, .neginf => .fin (JQ.ofNat 0)
  | .neginf, .inf => .inf
  | .neginf, .neginf => .fin (JQ.ofNat 0)

def two32Nat : Nat := 4294967296
def two31Nat : Nat := 2147483648

/-- `ToInt32`: truncate, reduce mod `2^32` into `[-2^31, 2^31)`. -/
def jnumToInt32 : JNum → Int
  | .fin q =>
      let m : Int := Int.emod (jqTrunc q) (two32Nat : Int)
      if m ≥ (two31Nat : Int) then m - (two32Nat : Int) else m
  | _ => 0

/-- `ToUint32`: truncate, reduce mod `2^32` into `[0, 2^32)`. -/
def jnumToUint32 : JNum → Nat
  | .fin q => (Int.emod (jqTrunc q) (two32Nat : Int)).toNat
  | _ => 0

/-- Two's-complement `Nat` representation of an int32. -/
def int32Bits (i : Int) : Nat := (if i < 0 then i + (two32Nat : Int) else i).toNat

/-- Back from two's-complement bits to a signed int32. -/
def bitsToInt32 (n : Nat) : Int :=
  let m : Nat := n % two32Nat
  if m ≥ two31Nat then (m : Int) - (two32Nat : Int) else (m : Int)

def jnumBitAnd (a b : JNum) : JNum :=
  .fin (JQ.ofInt (bitsToInt32 (Nat.land (int32Bits (jnumToInt32 a)) (int32Bits (jnumToInt32 b)))))

def jnumBitOr (a b : JNum) : JNum :=
  .fin (JQ.ofInt (bitsToInt32 (Nat.lor (int32Bits (jnumToInt32 a)) (int32Bits (jnumToInt32 b)))))

def jnumBitXor (a b : JNum) : JNum :=
  .fin (JQ.ofInt (bitsToInt32 (Nat.xor (int32Bits (jnumToInt32 a)) (int32Bits (jnumToInt32 b)))))

def jnumBitNot (a : JNum) : JNum :=
  .fin (JQ.ofInt (bitsToInt32 (two32Nat - 1 - int32Bits (jnumToInt32 a))))

def jnumShl (a b : JNum) : JNum :=
  .fin (JQ.ofInt (bitsToInt32 (Nat.shiftLeft (int32Bits (jnumToInt32 a)) (jnumToUint32 b % 32))))

def jnumShr (a b : JNum) : JNum :=
  let sh : Nat := jnumToUint32 b % 32
  .fin (JQ.ofInt (Int.fdiv (jnumToInt32 a) ((natPowF 2 sh : Nat) : Int)))

def jnumShrU (a b : JNum) : JNum :=
  .fin (JQ.ofNat (Nat.shiftRight (int32Bits (jnumToInt32 a)) (jnumToUint32 b % 32)))

mutual

/-- JavaScript `===`.  On objects and arrays the model compares structurally
where JavaScript compares references; no claim under verification compares
two objects, so the difference is unobservable here. -/
def jsStrictEq : JSVal → JSVal → Bool
  | .undef, .undef => true
  | .null, .null => true
  | .bool a, .bool b => a == b
  | .num (.fin a), .num (.fin b) => jqEq a b
  | .num .inf, .num .inf => true
  | .num .neginf, .num .neginf => true
  | .str a, .str b => a == b
  | .obj a, .obj b => jsStrictEqFields a b
  | .arr a, .arr b => jsStrictEqList a b
  | _, _ => false

def jsStrictEqFields : List (String × JSVal) → List (String × JSVal) → Bool
  | [], [] => true
  | (k, v) :: r, (k2, v2) :: r2 => k == k2 && jsStrictEq v v2 && jsStrictEqFields r r2
  | _, _ => false

def jsStrictEqList : List JSVal → List JSVal → Bool
  | [], [] => true
  | v :: r, v2 :: r2 => jsStrictEq v v2 && jsStrictEqList r r2
  | _, _ => false

end

/-- `SameValueZero`, the key-equality used by JavaScript `Map`: like `===`
except NaN equals NaN. -/
def sameValueZero (a b : JSVal) : Bool :=
  match a, b with
  | .num .nan, .num .nan => true
  | _, _ => jsStrictEq a b

/-- Is the value a primitive (not an object or array)? -/
def jsIsPrimitive : JSVal → Bool
  | .obj _ => false
  | .arr _ => false
  | _ => true

/-- Default `ToPrimitive` on the modelled plain data: objects and arrays go
through `ToString`; primitives are unchanged. -/
def jsToPrimitive (v : JSVal) : JSVal :=
  match v with
  | .obj _ => .str (jsToString v)
  | .arr _ => .str (jsToString v)
  | _ => v

/-- Helper for `==` after coercing a boolean left operand to a number. -/
def jsLooseEqPrimNum (x : JQ) (b : JSVal) : Bool :=
  match b with
  | .bool y => jqEq x (JQ.ofNat (if y then 1 else 0))
  | .num y => jsStrictEq (.num (.fin x)) (.num y)
  | .str y => jsStrictEq (.num (.fin x)) (.num (strToNumber y))
  | _ => false

/-- Helper for `==` after coercing a boolean right operand to a number. -/
def jsLooseEqPrimNum2 (a : JSVal) (y : JQ) : Bool :=
  match a with
  | .num x => jsStrictEq (.num x) (.num (.fin y))
  | .str x => jsStrictEq (.num (strToNumber x)) (.num (.fin y))
  | _ => false

/-- JavaScript `==` on primitives (both arguments already `ToPrimitive`d). -/
def jsLooseEqPrim (a b : JSVal) : Bool :=
  match a, b with
  | .undef, .undef => true
  | .undef, .null => true
  | .null, .undef => true
  | .null, .null => true
  | .num x, .num y => jsStrictEq (.num x) (.num y)
  | .str x, .str y => x == y
  | .num x, .str y => jsStrictEq (.num x) (.num (strToNumber y))
  | .str x, .num y => jsStrictEq (.num (strToNumber x)) (.num y)
  | .bool x, _ => jsLooseEqPrimNum (JQ.ofNat (if x then 1 else 0)) b
  | _, .bool y => jsLooseEqPrimNum2 a (JQ.ofNat (if y then 1 else 0))
  | _, _ => false

/-- JavaScript `==`: two objects compare like `===`; otherwise both sides
are taken to primitives and compared with the coercion rules. -/
def jsLooseEq (a b : JSVal) : Bool :=
  if ¬ jsIsPrimitive a && ¬ jsIsPrimitive b then jsStrictEq a b
  else jsLooseEqPrim (jsToPrimitive a) (jsToPrimitive b)

/-- Three-way comparison on the number domain; `none` when NaN is involved. -/
def jnumCompare : JNum → JNum → Option Ordering
  | .nan, _ => none
  | _, .nan => none
  | .fin a, .fin b => some (jqCompare a b)
  | .inf, .inf => some .eq
  | .neginf, .neginf => some .eq
  | .inf, _ => some .gt
  | _, .inf => some .lt
  | .neginf, _ => some .lt
  | _, .neginf => some .gt

/-- JavaScript abstract relational comparison: string-vs-string compares
code units, anything else compares as numbers (`none` when NaN appears). -/
def jsCompare (a b : JSVal) : Option Ordering :=
  match jsToPrimitive a, jsToPrimitive b with
  | .str x, .str y => some (charListCompare x.toList y.toList)
  | pa, pb => jnumCompare (jsToNumber pa) (jsToNumber pb)

def jsLt (a b : JSVal) : Bool := (jsCompare a b) == some .lt
def jsGt (a b : JSVal) : Bool := (jsCompare a b) == some .gt
def jsLe (a b : JSVal) : Bool := (jsCompare a b) == some .lt || (jsCompare a b) == some .eq
def jsGe (a b : JSVal) : Bool := (jsCompare a b) == some .gt || (jsCompare a b) == some .eq

/-- JavaScript `+`: string concatenation when either primitive side is a
string, numeric addition otherwise. -/
def jsAdd (a b : JSVal) : JSVal :=
  let pa := jsToPrimitive a
  let pb := jsToPrimitive b
  match pa, pb with
  | .str x, _ => .str (x ++ jsToString pb)
  | _, .str y => .str (jsToString pa ++ y)
  | _, _ => .num (jnumAdd (jsToNumber pa) (jsToNumber pb))

def jsSub (a b : JSVal) : JSVal := .num (jnumSub (jsToNumber a) (jsToNumber b))
def jsMul (a b : JSVal) : JSVal := .num (jnumMul (jsToNumber a) (jsToNumber b))
def jsDiv (a b : JSVal) : JSVal := .num (jnumDiv (jsToNumber a) (jsToNumber b))
def jsMod (a b : JSVal) : JSVal := .num (jnumMod (jsToNumber a) (jsToNumber b))
def jsPow (a b : JSVal) : JSVal := .num (jnumPow (jsToNumber a) (jsToNumber b))

/-- Property read `x[key]` on the modelled data.  Reading a property off
`null` or `undefined` throws a TypeError, exactly as in JavaScript; numbers
and booleans have no own properties in the model; arrays expose `length` and
their indices, strings `length` and their characters. -/
def getMember (x : JSVal) (key : String) : JRes JSVal :=
  match x with
  | .null => .error (.typeError "Cannot read properties of null")
  | .undef => .error (.typeError "Cannot read properties of undefined")
  | .obj fs =>
      match fs.lookup key with
      | some v => .ok v
      | none => .ok .undef
  | .arr es =>
      if key = "length" then .ok (.num (.fin (JQ.ofNat es.length)))
      else if key ≠ "" && key.toList.all isDigitChar then
        match es.get? (digitsToNat key.toList) with
        | some v => .ok v
        | none => .ok .undef
      else .ok .undef
  | .str s =>
      if key = "length" then .ok (.num (.fin (JQ.ofNat s.length)))
      else if key ≠ "" && key.toList.all isDigitChar then
        match s.toList.get? (digitsToNat key.toList) with
        | some c => .ok (.str (String.mk [c]))
        | none => .ok .undef
      else .ok .undef
  | _ => .ok JSVal.undef

/-- One step of the path-walking reducer in `#resolveValue`:
`(x, key) => (x === undefined || x[key] === undefined) ? undefined : x[key]`. -/
def pathStep (x : JSVal) (key : String) : JRes JSVal :=
  if jsStrictEq x .undef then .ok .undef
  else do
    let v ← getMember x key
    if jsStrictEq v .undef then pure .undef else pure v

/-- The reducer of `#resolveValue`: fold `pathStep` along the path segments,
starting from the state tree. -/
def pathReduce (state : JSVal) (segs : List String) : JRes JSVal :=
  segs.foldlM pathStep state

/-! ### String utilities mirroring the JavaScript string operations used -/

/-- `String.prototype.replace` with a plain-string pattern: replace the
first occurrence only. -/
def replaceFirstL (pat repl : List Char) : List Char → List Char
  | [] => []
  | c :: rest =>
      if pat.isPrefixOf (c :: rest) then repl ++ (c :: rest).drop pat.length
      else c :: replaceFirstL pat repl rest

def replaceFirst (s pat repl : String) : String :=
  String.mk (replaceFirstL pat.toList repl.toList s.toList)

/-- `@alias\b` global replacement (`#rgxFormatVariable`): replace every
occurrence of `"@" ++ alias` that is not followed by a word character.  The
structural fuel is at least the character count plus one and every step
consumes a character, so the fuel is never exhausted. -/
def replaceAliasL (aliasName repl : List Char) : Nat → List Char → List Char
  | 0, cs => cs
  | _ + 1, [] => []
  | f + 1, c :: rest =>
      if c = '@' && aliasName.isPrefixOf rest &&
         (match rest.drop aliasName.length with
          | [] => true
          | d :: _ => ¬ isWordChar d) then
        repl ++ replaceAliasL aliasName repl f (rest.drop aliasName.length)
      else c :: replaceAliasL aliasName repl f rest

def replaceAlias (s aliasName repl : String) : String :=
  String.mk (replaceAliasL aliasName.toList repl.toList (s.length + 1) s.toList)

/-- Collect the maximal non-whitespace runs of a character list. -/
def wsTokens : Nat → List Char → List String
  | 0, _ => []
  | _ + 1, [] => []
  | f + 1, cs =>
      let cs1 := cs.dropWhile Char.isWhitespace
      match cs1 with
      | [] => []
      | _ =>
          String.mk (cs1.takeWhile (fun c => ! c.isWhitespace)) ::
            wsTokens f (cs1.dropWhile (fun c => ! c.isWhitespace))

/-- `String.prototype.trim` followed by `split(/\s+/)` (the empty string
splits to `[""]`, as in JavaScript). -/
def splitWhitespace (s : String) : List String :=
  let t := trimL s.toList
  if t = [] then [""]
  else wsTokens (t.length + 1) t

/-! ### `#fromBrackets`, `#getInnerExpressions` and `#createPath` -/

/-- Slices `(start, stop)` of outermost bracket contents, as scanned by the
`#fromBrackets` generator (depth counting, stray closers drive the depth
negative exactly as in the source). -/
def bracketSlices : List Char → Nat → Int → Option Nat → List (Nat × Nat)
  | [], _, _, _ => []
  | c :: rest, i, depth, start =>
      if c = '[' then
        bracketSlices rest (i + 1) (depth + 1) (if depth = 0 then some i else start)
      else if c = ']' then
        if depth - 1 = 0 then
          match start with
          | some st => (st, i) :: bracketSlices rest (i + 1) (depth - 1) none
          | none => bracketSlices rest (i + 1) (depth - 1) none
        else bracketSlices rest (i + 1) (depth - 1) start
      else bracketSlices rest (i + 1) depth start

/-- `#fromBrackets`: outermost bracket contents of a string. -/
def fromBrackets (s : String) : List String :=
  let cs := s.toList
  (bracketSlices cs 0 0 none).map (fun sl => String.mk ((cs.drop (sl.1 + 1)).take (sl.2 - sl.1 - 1)))

/-- Does the string match `^\{[a-zA-Z0-9_]+\}$` (a full index placeholder)? -/
def isIndexPlaceholder (s : String) : Bool :=
  match s.toList with
  | c :: rest =>
      c = lbrace && rest ≠ [] &&
      (match rest.getLast? with
       | some d => d = rbrace && (rest.dropLast ≠ [] && (rest.dropLast).all isWordChar)
       | none => false)
  | [] => false

/-- Does the string match `^\d+$`? -/
def isFullInteger (s : String) : Bool :=
  s ≠ "" && s.toList.all isDigitChar

/-- `#getInnerExpressions`: outermost bracket contents that are neither a
full `{index_key}` placeholder nor a full integer. -/
def getInnerExpressions (s : String) : List String :=
  ((fromBrackets s).filter (fun x => ¬ isIndexPlaceholder x)).filter (fun x => ¬ isFullInteger x)

/-- Global replacement of `\{([a-zA-Z0-9_]+)\}` with the recorded index from
the index map (a missing entry renders as `"undefined"`, the stringification
of `Map.get`'s result in the template). -/
def substIndexPlaceholders (indexMap : List (String × Nat)) : Nat → List Char → List Char
  | 0, cs => cs
  | _ + 1, [] => []
  | f + 1, c :: rest =>
      if c = lbrace then
        let w := rest.takeWhile isWordChar
        match rest.drop w.length with
        | d :: _ =>
            if w ≠ [] && d = rbrace then
              (match indexMap.lookup (String.mk w) with
               | some i => (toString i).toList
               | none => "undefined".toList) ++ substIndexPlaceholders indexMap f (rest.drop (w.length + 1))
            else c :: substIndexPlaceholders indexMap f rest
        | [] => c :: substIndexPlaceholders indexMap f rest
      else c :: substIndexPlaceholders indexMap f rest

/-- Global replacement of `\[(\d+)\]` with `"." ++ digits ++ "."`. -/
def substDigitBrackets : Nat → List Char → List Char
  | 0, cs => cs
  | _ + 1, [] => []
  | f + 1, c :: rest =>
      if c = '[' then
        let w := rest.takeWhile isDigitChar
        match rest.drop w.length with
        | d :: _ =>
            if w ≠ [] && d = ']' then
              '.' :: (w ++ '.' :: substDigitBrackets f (rest.drop (w.length + 1)))
            else c :: substDigitBrackets f rest
        | [] => c :: substDigitBrackets f rest
      else c :: substDigitBrackets f rest

/-- Collapse runs of dots (`/\.+/g → "."`). -/
def collapseDots : Nat → List Char → List Char
  | 0, cs => cs
  | _ + 1, [] => []
  | f + 1, '.' :: rest =>
      '.' :: collapseDots f (rest.drop ((rest.takeWhile (fun c => c = '.')).length))
  | f + 1, c :: rest => c :: collapseDots f rest

def stripLeadingDot (cs : List Char) : List Char :=
  match cs with
  | '.' :: rest => rest
  | _ => cs

def stripTrailingDot (cs : List Char) : List Char :=
  match cs.getLast? with
  | some '.' => cs.dropLast
  | _ => cs

/-- `split(".")` on a character list. -/
def splitDotL : List Char → List (List Char)
  | [] => [[]]
  | '.' :: rest => [] :: splitDotL rest
  | c :: rest =>
      match splitDotL rest with
      | t :: ts => (c :: t) :: ts
      | [] => [[c]]

/-- `#createPath`: index placeholders substituted, digit brackets dotted,
dots normalised, then split on dots; paths touching the prototype chain are
rejected with an error, as in the source. -/
def createPath (indexMap : List (String × Nat)) (exp : String) : JRes (List String) :=
  let cs := substIndexPlaceholders indexMap (exp.length + 1) exp.toList
  let cs := substDigitBrackets (cs.length + 1) cs
  let cs := collapseDots (cs.length + 1) cs
  let cs := stripTrailingDot (stripLeadingDot cs)
  let path := (splitDotL cs).map String.mk
  if path.any (fun x => x = "__proto__" || x = "constructor" || x = "prototype") then
    .error (.error "Path includes forbidden keywords")
  else .ok path


/-! ### The tokenizer and parser of `JSBinder.#ExpressionTree.#buildTree` -/

/-- The operator lexeme set (`#OPERATORS`). -/
def OPERATORS : List String :=
  ["?", ":", "(", ")", "!!", "!", "~", "<<", ">>", ">>>", "**", "*", "/", "%",
   "+", "-", ">=", ">", "<=", "<", "===", "==", "!==", "!=", "&", "^", "|",
   "&&", "||", "??"]

def isOperatorStr (s : String) : Bool := OPERATORS.contains s

/-- `#isFunction`: does the token match `^#[a-zA-Z][0-9a-zA-Z_]*$`? -/
def isFunctionStr (s : String) : Bool :=
  match s.toList with
  | '#' :: c :: rest => isAsciiAlpha c && rest.all isWordChar
  | _ => false

/-- The string-literal matches of `/'[^']*'|"[^"]*"/g`, in scan order. -/
def matchStringLiterals : Nat → List Char → List (List Char)
  | 0, _ => []
  | _ + 1, [] => []
  | f + 1, c :: rest =>
      if c = quoteChar1 then
        match rest.findIdx? (fun d => d = quoteChar1) with
        | some k => (c :: (rest.take k ++ [quoteChar1])) :: matchStringLiterals f (rest.drop (k + 1))
        | none => matchStringLiterals f rest
      else if c = quoteChar2 then
        match rest.findIdx? (fun d => d = quoteChar2) with
        | some k => (c :: (rest.take k ++ [quoteChar2])) :: matchStringLiterals f (rest.drop (k + 1))
        | none => matchStringLiterals f rest
      else matchStringLiterals f rest

/-- The `"\x7b\x7bstr" ++ i ++ "\x7d\x7d"` placeholder. -/
def strPlaceholder (i : Nat) : String := "\x7b\x7bstr" ++ toString i ++ "\x7d\x7d"

/-- The `"\x7b\x7bexp" ++ i ++ "\x7d\x7d"` placeholder. -/
def expPlaceholder (i : Nat) : String := "\x7b\x7bexp" ++ toString i ++ "\x7d\x7d"

/-- The operator lexemes in the order of the splitting regex's alternation. -/
def splitLexemes : List (List Char) :=
  [">>>", "===", "!==", "!!", "<<", ">>", "**", ">=", "<=", "==", "!=", "&&",
   "||", "??", "?", ":", "(", ")", "!", "~", "*", "/", "%", "+", "-", ">",
   "<", "&", "^", "|"].map String.toList

/-- The operator-spacing pass: every operator lexeme (leftmost alternative
first, scanning left to right) is wrapped in spaces. -/
def opSplitL : Nat → List Char → List Char
  | 0, cs => cs
  | _ + 1, [] => []
  | f + 1, c :: rest =>
      match splitLexemes.find? (fun lx => lx.isPrefixOf (c :: rest)) with
      | some lx => ' ' :: (lx ++ ' ' :: opSplitL f (rest.drop (lx.length - 1)))
      | none => c :: opSplitL f rest

/-- Per-token global restoration of `\x7b\x7bexp(\d+)\x7d\x7d` placeholders. -/
def restoreExpL (m : List String) : Nat → List Char → List Char
  | 0, cs => cs
  | _ + 1, [] => []
  | f + 1, c :: rest =>
      if ("\x7b\x7bexp".toList).isPrefixOf (c :: rest) then
        let after := rest.drop 4
        let ds := after.takeWhile isDigitChar
        if ds ≠ [] && ("\x7d\x7d".toList).isPrefixOf (after.drop ds.length) then
          ((m.get? (digitsToNat ds)).getD "undefined").toList
            ++ restoreExpL m f (rest.drop (4 + ds.length + 2))
        else c :: restoreExpL m f rest
      else c :: restoreExpL m f rest

/-- Whole-token restoration of `^\x7b\x7bstr(\d+)\x7d\x7d$` placeholders. -/
def restoreStrToken (m : List (List Char)) (t : String) : String :=
  let cs := t.toList
  if ("\x7b\x7bstr".toList).isPrefixOf cs then
    let after := cs.drop 5
    let ds := after.takeWhile isDigitChar
    if ds ≠ [] && after.drop ds.length = "\x7d\x7d".toList then
      match m.get? (digitsToNat ds) with
      | some sm => String.mk sm
      | none => "undefined"
    else t
  else t

/-- Parse trees as produced by `#buildTree`: nested arrays whose leaves are
the split tokens. -/
inductive Tok where
  | leaf (s : String)
  | node (ts : List Tok)
deriving Repr, Inhabited

def isLeafEq (t : Tok) (s : String) : Bool :=
  match t with
  | .leaf s2 => s2 == s
  | _ => false

def isLeafIn (t : Tok) (ss : List String) : Bool :=
  match t with
  | .leaf s2 => ss.contains s2
  | _ => false

/-- `#isOperator` lifted to parse-tree elements (arrays are not strings and
therefore never operators). -/
def isOperatorTok (t : Tok) : Bool :=
  match t with
  | .leaf s => isOperatorStr s
  | _ => false

/-- `output.splice(x, w, [repl])`. -/
def spliceAt (out : List Tok) (x w : Nat) (repl : Tok) : List Tok :=
  out.take x ++ repl :: out.drop (x + w)

/-- One step of the right-to-left unary `-`/`+` pass: group when the token is
a sign at the start of the list or right after another operator. -/
def unarySignStep (out : List Tok) (x : Nat) : List Tok :=
  match out.get? x, out.get? (x + 1) with
  | some t, some t2 =>
      if isLeafIn t ["-", "+"] &&
         (x == 0 || ((out.get? (x - 1)).map isOperatorTok).getD false) then
        spliceAt out x 2 (.node [t, t2])
      else out
  | _, _ => out

/-- One step of the right-to-left `!!`/`!`/`~` pass. -/
def unaryNotStep (out : List Tok) (x : Nat) : List Tok :=
  match out.get? x, out.get? (x + 1) with
  | some t, some t2 =>
      if isLeafIn t ["!!", "!", "~"] then spliceAt out x 2 (.node [t, t2]) else out
  | _, _ => out

/-- One step of the right-to-left exponentiation pass. -/
def powStep (out : List Tok) (x : Nat) : List Tok :=
  match out.get? x, out.get? (x + 1), out.get? (x + 2) with
  | some a, some b, some c =>
      if isLeafEq b "**" then spliceAt out x 3 (.node [a, b, c]) else out
  | _, _, _ => out

/-- One step of the right-to-left ternary pass. -/
def ternaryStep (out : List Tok) (x : Nat) : List Tok :=
  match out.get? x, out.get? (x + 1), out.get? (x + 2), out.get? (x + 3), out.get? (x + 4) with
  | some a, some q, some b, some colon, some d =>
      if isLeafEq q "?" && isLeafEq colon ":" then
        spliceAt out x 5 (.node [a, q, b, colon, d])
      else out
  | _, _, _, _, _ => out

/-- Drive a step function from index `x` down to `0` (the splice loops of
`#buildTree` iterate right to left). -/
def descendPass (step : List Tok → Nat → List Tok) : List Tok → Nat → List Tok
  | out, 0 => step out 0
  | out, x + 1 => descendPass step (step out (x + 1)) x

/-- Run a right-to-left pass with window width `w`, starting at index
`length - w` as the JavaScript `for` loops do. -/
def runPassRL (w : Nat) (step : List Tok → Nat → List Tok) (out : List Tok) : List Tok :=
  if out.length < w then out else descendPass step out (out.length - w)

/-- The left-to-right tier loop
`while (output.length > 3 && x <= output.length - 3) ...` as a zipper over
(reversed prefix, remaining suffix). -/
def tierLoop (ops : List String) : Nat → List Tok → List Tok → List Tok
  | 0, left, right => left.reverse ++ right
  | f + 1, left, a :: b :: c :: rest =>
      if left.length + rest.length + 3 > 3 then
        if isLeafIn b ops then tierLoop ops f left (Tok.node [a, b, c] :: rest)
        else tierLoop ops f (a :: left) (b :: c :: rest)
      else left.reverse ++ a :: b :: c :: rest
  | _ + 1, left, right => left.reverse ++ right

/-- The binary precedence tiers, loosest-binding last. -/
def precedenceTiers : List (List String) :=
  [["*", "/", "%"], ["+", "-"], ["<<", ">>", ">>>"], [">=", ">", "<=", "<"],
   ["===", "==", "!==", "!="], ["&"], ["^"], ["|"], ["&&"], ["||"], ["??"]]

/-- All splice passes of `#buildTree.recurse`, in source order. -/
def applyPasses (out : List Tok) : List Tok :=
  let o1 := runPassRL 2 unarySignStep out
  let o2 := runPassRL 2 unaryNotStep o1
  let o3 := runPassRL 3 powStep o2
  let o4 := precedenceTiers.foldl (fun o ops => tierLoop ops (o.length + 1) [] o) o3
  runPassRL 5 ternaryStep o4

/-- `recurse`'s final unwrap: a singleton array whose element is an array is
returned unwrapped. -/
def finalizeParts (out : List Tok) : List Tok :=
  let p := applyPasses out
  match p with
  | [.node l] => l
  | _ => p

/-- `#unwrapSingleArray` applied to a returned parse (sub)tree. -/
def unwrapSingleTok (l : List Tok) : Tok :=
  match l with
  | [x] => x
  | _ => .node l

/-- The token-consuming loop of `recurse`: collects items, descending into
parenthesised groups (fully parsed before being pushed) and stopping at a
closing parenthesis.  Fuel is at least the token count plus one, which the
caller supplies. -/
def parseGroups : Nat → List String → (List Tok × List String)
  | 0, ts => ([], ts)
  | _ + 1, [] => ([], [])
  | f + 1, t :: rest =>
      if t = "(" then
        let sub := parseGroups f rest
        let item := unwrapSingleTok (finalizeParts sub.1)
        let cont := parseGroups f sub.2
        (item :: cont.1, cont.2)
      else if t = ")" then ([], rest)
      else
        let cont := parseGroups f rest
        (Tok.leaf t :: cont.1, cont.2)

/-- `#buildTree`: mask string literals, mask inner bracket expressions, space
out the operators, split on whitespace, restore the masked pieces, then parse
groups and apply the precedence passes. -/
def buildTree (exp : String) : List Tok :=
  let strMatches := matchStringLiterals (exp.length + 1) exp.toList
  let masked := (strMatches.enum).foldl
    (fun e p => replaceFirst e (String.mk p.2) (strPlaceholder p.1)) exp
  let inner := getInnerExpressions masked
  let masked2 := (inner.enum).foldl
    (fun e p => replaceFirst e ("[" ++ p.2 ++ "]") ("[" ++ expPlaceholder p.1 ++ "]")) masked
  let parts := splitWhitespace (String.mk (opSplitL (masked2.length + 1) masked2.toList))
  let parts := parts.map (fun t => String.mk (restoreExpL inner (t.length + 1) t.toList))
  let parts := parts.map (fun t => restoreStrToken strMatches t)
  (finalizeParts (parseGroups (parts.length + 1) parts).1)


/-! ### The evaluator of `JSBinder.#ExpressionTree.evaluate` and `#resolveValue` -/

/-- Evaluation-phase trees: parse-tree leaves that are neither operators nor
function names have been resolved to values (`v`); operator and function
leaves stay as strings (`s`); arrays stay as nodes (`nd`). -/
inductive EvalT where
  | v (x : JSVal)
  | s (t : String)
  | nd (ts : List EvalT)
deriving Repr, Inhabited

mutual

/-- An evaluation-phase tree as the JavaScript value it denotes (operator
strings are strings, arrays are arrays). -/
def evToVal : EvalT → JSVal
  | .v x => x
  | .s t => .str t
  | .nd ts => .arr (evToValList ts)

def evToValList : List EvalT → List JSVal
  | [] => []
  | e :: rest => evToVal e :: evToValList rest

end

/-- `data[i] === op`: in JavaScript both operator tokens and resolved string
values are strings, so a resolved string equal to the operator lexeme also
matches. -/
def isOpMatch (e : EvalT) (op : String) : Bool :=
  match e with
  | .s t => t == op
  | .v (.str t) => t == op
  | _ => false

/-- The unary operator table of `handlePrefixOperations` (note the source's
`0-x` and `0+x`: unary `+` concatenates when applied to a string). -/
def applyUnaryOp (op : String) (x : JSVal) : JSVal :=
  if op = "!!" then .bool (jsTruthy x)
  else if op = "!" then .bool (! jsTruthy x)
  else if op = "~" then .num (jnumBitNot (jsToNumber x))
  else if op = "-" then jsSub (.num (.fin (JQ.ofNat 0))) x
  else jsAdd (.num (.fin (JQ.ofNat 0))) x

/-- The binary operator table of `handleInfixOperations`. -/
def applyBinaryOp (op : String) (x y : JSVal) : JSVal :=
  if op = "**" then jsPow x y
  else if op = "*" then jsMul x y
  else if op = "/" then jsDiv x y
  else if op = "%" then jsMod x y
  else if op = "+" then jsAdd x y
  else if op = "-" then jsSub x y
  else if op = "<<" then .num (jnumShl (jsToNumber x) (jsToNumber y))
  else if op = ">>" then .num (jnumShr (jsToNumber x) (jsToNumber y))
  else if op = ">>>" then .num (jnumShrU (jsToNumber x) (jsToNumber y))
  else if op = "===" then .bool (jsStrictEq x y)
  else if op = "==" then .bool (jsLooseEq x y)
  else if op = "!==" then .bool (! jsStrictEq x y)
  else if op = "!=" then .bool (! jsLooseEq x y)
  else if op = ">=" then .bool (jsGe x y)
  else if op = ">" then .bool (jsGt x y)
  else if op = "<=" then .bool (jsLe x y)
  else if op = "<" then .bool (jsLt x y)
  else if op = "&" then .num (jnumBitAnd (jsToNumber x) (jsToNumber y))
  else if op = "^" then .num (jnumBitXor (jsToNumber x) (jsToNumber y))
  else if op = "|" then .num (jnumBitOr (jsToNumber x) (jsToNumber y))
  else if op = "&&" then (if jsTruthy x then y else x)
  else if op = "||" then (if jsTruthy x then x else y)
  else (if (match x with | .undef => true | .null => true | _ => false) then y else x)

/-- The unary operator lexemes in table order. -/
def unaryOpNames : List String := ["!!", "!", "~", "-", "+"]

/-- The binary operator lexemes in table order. -/
def binaryOpNames : List String :=
  ["**", "*", "/", "%", "+", "-", "<<", ">>", ">>>", "===", "==", "!==", "!=",
   ">=", ">", "<=", "<", "&", "^", "|", "&&", "||", "??"]

/-- `#evaluatePrefixOperations`: fold the operator table over the data list,
rewriting a two-element `[op, operand]` window into the applied result. -/
def evaluatePrefixOperations (data : List EvalT) (map : List (String × (EvalT → EvalT))) : List EvalT :=
  map.foldl
    (fun d p =>
      match d with
      | [d0, d1] => if isOpMatch d0 p.1 then [p.2 d1] else d
      | _ => d)
    data

/-- `#evaluateInfixOperations`: fold the operator table over the data list,
rewriting a three-element `[lhs, op, rhs]` window into the applied result. -/
def evaluateInfixOperations (data : List EvalT) (map : List (String × (EvalT → EvalT → EvalT))) : List EvalT :=
  map.foldl
    (fun d p =>
      match d with
      | [d0, d1, d2] => if isOpMatch d1 p.1 then [p.2 d0 d2] else d
      | _ => d)
    data

/-- `list(x)` in `handleTernary`: wrap non-arrays. -/
def toListEv (e : EvalT) : List EvalT :=
  match e with
  | .nd l => l
  | x => [x]

/-- The registered custom-function table and state, bundled as the evaluation
context. -/
structure EvalCtx where
  state : JSVal
  functions : List (String × (JSVal → JSVal))
  indexMap : List (String × Nat)

def isIntLit (cs : List Char) : Bool :=
  match cs with
  | '-' :: ds => ds ≠ [] && ds.all isDigitChar
  | ds => ds ≠ [] && ds.all isDigitChar

def isFloatLit (cs : List Char) : Bool :=
  let core (ds : List Char) : Bool :=
    let ip := ds.takeWhile isDigitChar
    match ds.drop ip.length with
    | '.' :: fs => ip ≠ [] && fs ≠ [] && fs.all isDigitChar
    | _ => false
  match cs with
  | '-' :: ds => core ds
  | ds => core ds

/-- Is the trimmed expression a quoted string literal
(`^(['"]).*\1$`, no newline inside)? -/
def isStringLit (cs : List Char) : Bool :=
  match cs with
  | c :: rest =>
      (c = quoteChar1 || c = quoteChar2) && rest ≠ [] && rest.getLast? = some c &&
        (rest.dropLast).all (fun d => d ≠ '\n')
  | [] => false

mutual

/-- `#evaluate` / `#ExpressionTree.evaluate`: build the parse tree, resolve
the literal leaves, evaluate the tree, and read the resulting JavaScript
value.  The fuel only bounds the mutual recursion through nested inner
expressions and ternary conditions; it is never exhausted at the concrete
inputs of the claims. -/
def evalExprF : Nat → EvalCtx → String → JRes JSVal
  | 0, _, _ => .error .outOfFuel
  | fuel + 1, ctx, exp => do
      let tree := buildTree exp
      let lits ← resolveLiteralsF fuel ctx tree
      let res ← evalTreeF fuel ctx lits
      pure (evToVal res)

/-- `resolveLiterals`: resolve every leaf that is neither a function name nor
an operator through `#resolveValue`. -/
def resolveLiteralsF : Nat → EvalCtx → List Tok → JRes (List EvalT)
  | 0, _, _ => .error .outOfFuel
  | fuel + 1, ctx, input =>
      input.mapM (fun t =>
        match t with
        | .node ts => do pure (EvalT.nd (← resolveLiteralsF fuel ctx ts))
        | .leaf x =>
            if isFunctionStr x || isOperatorStr x then pure (EvalT.s x)
            else do pure (EvalT.v (← resolveValueF fuel ctx x)))

/-- `evaluateTree`: evaluate children first, then ternary selection, then
the function, unary and binary operator tables, then unwrap singletons. -/
def evalTreeF : Nat → EvalCtx → List EvalT → JRes EvalT
  | 0, _, _ => .error .outOfFuel
  | fuel + 1, ctx, input => do
      let data ← input.mapM (fun x =>
        match x with
        | .nd ts => evalTreeF fuel ctx ts
        | other => pure other)
      let data ←
        match data with
        | [d0, d1, d2, d3, d4] =>
            if isOpMatch d1 "?" && isOpMatch d3 ":" then do
              let cond ← evalTreeF fuel ctx (toListEv d0)
              pure (if jsTruthy (evToVal cond) then toListEv d2 else toListEv d4)
            else pure data
        | _ => pure data
      let data := evaluatePrefixOperations data
        (ctx.functions.map (fun p => (p.1, fun e => EvalT.v (p.2 (evToVal e)))))
      let data := evaluatePrefixOperations data
        (unaryOpNames.map (fun op => (op, fun e => EvalT.v (applyUnaryOp op (evToVal e)))))
      let data := evaluateInfixOperations data
        (binaryOpNames.map (fun op => (op, fun a b => EvalT.v (applyBinaryOp op (evToVal a) (evToVal b)))))
      pure (match data with | [x] => x | l => .nd l)

/-- `#resolveValue`: literal forms short-circuit; otherwise inner bracket
expressions are evaluated and substituted, and the resulting path is resolved
against the state tree. -/
def resolveValueF : Nat → EvalCtx → String → JRes JSVal
  | 0, _, _ => .error .outOfFuel
  | fuel + 1, ctx, exp => do
      let e := trimStr exp
      let cs := e.toList
      if isIntLit cs then pure (.num (.fin (JQ.ofInt (match cs with
        | '-' :: ds => -(digitsToNat ds : Int)
        | ds => (digitsToNat ds : Int)))))
      else if isFloatLit cs then
        pure (.num (match parseDecimal cs with | some q => .fin q | none => .nan))
      else if isStringLit cs then
        pure (.str (String.mk (cs.drop 1).dropLast))
      else if e = "true" then pure (.bool true)
      else if e = "false" then pure (.bool false)
      else if e = "null" then pure .null
      else if e = "undefined" then pure .undef
      else if e = "Infinity" then pure (.num .inf)
      else if e = "NaN" then pure (.num .nan)
      else do
        let e ← (getInnerExpressions e).foldlM
          (fun acc x => do
            let evaluated ← evalExprF fuel ctx x
            pure (replaceFirst acc ("[" ++ x ++ "]") ("." ++ jsToString evaluated ++ ".")))
          e
        let path ← createPath ctx.indexMap e
        pathReduce ctx.state path

end


/-! ### `JSBinder.#ChangeDetector` -/

/-- The per-binding memo: `#current = null`, `#first = true` initially. -/
structure ChangeDetector where
  current : JSVal := .null
  first : Bool := true

def ChangeDetector.init : ChangeDetector := {}

/-- `check(value)`: true (and the value is stored) on the first call or when
`value !== #current`; false otherwise. -/
def ChangeDetector.check (m : ChangeDetector) (value : JSVal) : ChangeDetector × Bool :=
  if m.first || ! jsStrictEq value m.current then
    ({ current := value, first := false }, true)
  else (m, false)

/-- Run a sequence of `check` calls, collecting the returned booleans. -/
def ChangeDetector.run (m : ChangeDetector) : List JSVal → ChangeDetector × List Bool
  | [] => (m, [])
  | v :: rest =>
      let (m1, r) := m.check v
      let (m2, rs) := m1.run rest
      (m2, r :: rs)

/-! ### `#isNumeric`, `#alphaNumericSort` and the orderby sort -/

/-- `parseFloat`: longest numeric prefix of the trimmed string (an
`Infinity` form counts), NaN when no digits start the string. -/
def parseFloatJS (s : String) : JNum :=
  let t := (s.toList.dropWhile (fun c => c.isWhitespace))
  let core (sign : Bool) (ds : List Char) : JNum :=
    if ("Infinity".toList).isPrefixOf ds then (if sign then .neginf else .inf)
    else
      let ip := ds.takeWhile isDigitChar
      let rest := ds.drop ip.length
      let fp := match rest with
        | '.' :: fs => fs.takeWhile isDigitChar
        | _ => []
      if ip = [] && fp = [] then .nan
      else
        let mag : JQ := ⟨(digitsToNat ip * natPowF 10 fp.length + digitsToNat fp : Nat), natPowF 10 fp.length⟩
        .fin (if sign then jqNeg mag else mag)
  match t with
  | '-' :: ds => core true ds
  | '+' :: ds => core false ds
  | ds => core false ds

/-- `#isNumeric`:
`typeof val === 'number' || (!isNaN(val) && !isNaN(parseFloat(val)))`. -/
def isNumeric (v : JSVal) : Bool :=
  match v with
  | .num _ => true
  | _ =>
      (match jsToNumber v with | .nan => false | _ => true) &&
      (match parseFloatJS (jsToString v) with | .nan => false | _ => true)

/-- A model of `String.prototype.localeCompare` with
`numeric: true, sensitivity: 'base'` for ASCII content: digit runs compare
by numeric value, other characters case-insensitively.  (No claim exercises
this branch; it only participates as the non-numeric arm of the
comparator.) -/
def localeCompareNumericBase : Nat → List Char → List Char → Int
  | 0, _, _ => 0
  | _ + 1, [], [] => 0
  | _ + 1, [], _ :: _ => -1
  | _ + 1, _ :: _, [] => 1
  | f + 1, a :: as, b :: bs =>
      if isDigitChar a && isDigitChar b then
        let da := (a :: as).takeWhile isDigitChar
        let db := (b :: bs).takeWhile isDigitChar
        let na := digitsToNat da
        let nb := digitsToNat db
        if na < nb then -1
        else if nb < na then 1
        else localeCompareNumericBase f (as.drop (da.length - 1)) (bs.drop (db.length - 1))
      else
        let la := a.toLower
        let lb := b.toLower
        if la.toNat < lb.toNat then -1
        else if lb.toNat < la.toNat then 1
        else localeCompareNumericBase f as bs

/-- The sign returned by `#alphaNumericSort` (numbers sort after
non-numbers, numbers by value via `parseFloat` difference — a NaN difference
counts as 0, as `SortCompare` coerces NaN comparator results to +0 — and
non-numbers via locale comparison). -/
def alphaNumericSort (a b : JSVal) : Int :=
  let aIsNum := isNumeric a
  let bIsNum := isNumeric b
  if aIsNum && ! bIsNum then 1
  else if ! aIsNum && bIsNum then -1
  else if aIsNum && bIsNum then
    match jnumSub (parseFloatJS (jsToString a)) (parseFloatJS (jsToString b)) with
    | .fin q => if jqIsNeg q then -1 else if jqIsPos q then 1 else 0
    | .inf => 1
    | .neginf => -1
    | .nan => 0
  else localeCompareNumericBase ((jsToString a).length + (jsToString b).length + 1)
    (jsToString a).toList (jsToString b).toList

/-- Stable insertion used to model `Array.prototype.sort` (which is stable;
for a consistent comparator the stable sorted result is unique). -/
def insertSorted (cmp : α → α → Int) (x : α) : List α → List α
  | [] => [x]
  | y :: rest => if cmp x y ≤ 0 then x :: y :: rest else y :: insertSorted cmp x rest

/-- Stable sort by a three-way comparator. -/
def stableSortBy (cmp : α → α → Int) (l : List α) : List α :=
  l.foldr (insertSorted cmp) []

/-! ### The `data-each` clause pipeline (`#eachDirective.refresh`, lines 607–646) -/

/-- The clauses of one `data-each` binding (`null` attributes are `none`). -/
structure EachClauses where
  list : String
  aliasName : String
  key : String
  whereE : Option String := none
  orderby : Option String := none
  distinct : Option String := none
  skipE : Option String := none
  limitE : Option String := none

/-- `expr.replace(RGX_VARIABLE_ALIAS, list ++ "[" ++ i ++ "]")`. -/
def aliasToIndexed (b : EachClauses) (e : String) (i : Nat) : String :=
  replaceAlias e b.aliasName (b.list ++ "[" ++ toString i ++ "]")

/-- `Map.prototype.set`: overwrite the stored value in place when a
`SameValueZero`-equal key is present, append a new entry otherwise. -/
def insEntry (m : List (JSVal × Nat)) (kv : JSVal × Nat) : List (JSVal × Nat) :=
  if m.any (fun e => sameValueZero e.1 kv.1) then
    m.map (fun e => if sameValueZero e.1 kv.1 then (e.1, kv.2) else e)
  else m ++ [kv]

/-- The insertion-ordered JavaScript `Map` built from an entry list: a later
entry with a `SameValueZero`-equal key overwrites the stored value in
place. -/
def jsMapFromEntries (entries : List (JSVal × Nat)) : List (JSVal × Nat) :=
  entries.foldl insEntry []

/-- `Map.prototype.get`: the stored value at the first (unique)
`SameValueZero`-matching key. -/
def svzLookup (m : List (JSVal × Nat)) (v : JSVal) : Option Nat :=
  (m.find? (fun e => sameValueZero e.1 v)).map (fun e => e.2)

/-- `Array.prototype.slice(start)` with a JavaScript start value. -/
def jsSliceFrom (l : List Nat) (v : JSVal) : List Nat :=
  match jsToNumber v with
  | .nan => l
  | .inf => []
  | .neginf => l
  | .fin q =>
      let s := jqTrunc q
      if s < 0 then l.drop (l.length - (min (-s) (l.length : Int)).toNat)
      else l.drop s.toNat

/-- `Array.prototype.slice(0, end)` with a JavaScript end value. -/
def jsSliceTo (l : List Nat) (v : JSVal) : List Nat :=
  match jsToNumber v with
  | .nan => []
  | .inf => l
  | .neginf => []
  | .fin q =>
      let e := jqTrunc q
      if e < 0 then l.take (l.length - (min (-e) (l.length : Int)).toNat)
      else l.take e.toNat

/-- Stage 1: all source indices, filtered by the optional `where` clause. -/
def whereStage (fuel : Nat) (ctx : EvalCtx) (b : EachClauses) : JRes (List Nat) := do
  let source ← resolveValueF fuel ctx b.list
  let len := match source with | .arr es => es.length | _ => 0
  (List.range len).filterM (fun i =>
    match b.whereE with
    | none => pure true
    | some w => do pure (jsTruthy (← evalExprF fuel ctx (aliasToIndexed b w i))))

/-- Stage 2: sort the indices by the evaluated `orderby` values. -/
def orderbyStage (fuel : Nat) (ctx : EvalCtx) (b : EachClauses) (indexes : List Nat) : JRes (List Nat) :=
  match b.orderby with
  | none => pure indexes
  | some o => do
      let pairs ← indexes.mapM (fun i => do
        pure (i, ← evalExprF fuel ctx (aliasToIndexed b o i)))
      pure ((stableSortBy (fun p q => alphaNumericSort p.2 q.2) pairs).map (fun p => p.1))

/-- Stage 3: keep only the `Map`-selected representative index per distinct
evaluated value (the entry list is reversed before the `Map` is built). -/
def distinctStage (fuel : Nat) (ctx : EvalCtx) (b : EachClauses) (indexes : List Nat) : JRes (List Nat) :=
  match b.distinct with
  | none => pure indexes
  | some dE => do
      let entries ← (indexes.reverse).mapM (fun i => do
        pure ((← evalExprF fuel ctx (aliasToIndexed b dE i)), i))
      let distinctIndexes := (jsMapFromEntries entries).map (fun e => e.2)
      pure (indexes.filter (fun i => distinctIndexes.contains i))

/-- Stage 4: `slice(skip)` when a skip clause is present. -/
def skipStage (skip : Option JSVal) (indexes : List Nat) : List Nat :=
  match skip with
  | none => indexes
  | some sv => jsSliceFrom indexes sv

/-- Stage 5: `slice(0, limit)` when a limit clause is present. -/
def limitStage (limit : Option JSVal) (indexes : List Nat) : List Nat :=
  match limit with
  | none => indexes
  | some lv => jsSliceTo indexes lv

/-- The index pipeline of `#eachDirective.refresh`: where-filter, then
orderby-sort, then distinct, then skip, then limit, exactly in source
order. -/
def eachIndexes (fuel : Nat) (ctx : EvalCtx) (b : EachClauses) : JRes (List Nat) := do
  let skip ← match b.skipE with
    | some st => do pure (some (← evalExprF fuel ctx st))
    | none => pure none
  let limit ← match b.limitE with
    | some lt => do pure (some (← evalExprF fuel ctx lt))
    | none => pure none
  let indexes ← whereStage fuel ctx b
  let indexes ← orderbyStage fuel ctx b indexes
  let indexes ← distinctStage fuel ctx b indexes
  let indexes := skipStage skip indexes
  let indexes := limitStage limit indexes
  pure indexes

/-- `[^a-zA-Z0-9] → "_"` over the stringified key value. -/
def sanitizeKey (s : String) : String :=
  String.mk (s.toList.map (fun c => if isAlnumChar c then c else '_'))

/-- The computed repeater key for source index `i`
(`itemIndex ++ "_" ++ sanitized(String(evaluate(key)))`; `.toString()`
throws on `null`/`undefined`). -/
def eachKeyFor (fuel : Nat) (ctx : EvalCtx) (b : EachClauses) (itemIndex : Nat) (i : Nat) : JRes String := do
  let v ← evalExprF fuel ctx (aliasToIndexed b b.key i)
  match v with
  | .null => .error (.typeError "Cannot read properties of null")
  | .undef => .error (.typeError "Cannot read properties of undefined")
  | _ => pure (toString itemIndex ++ "_" ++ sanitizeKey (jsToString v))


/-! ### The keyed reconciler of `#eachDirective.refresh` (lines 648–694)

Display nodes are modelled by numeric identities; the document order of a
repeater's nodes (the region between the `start` and `end` comment markers)
is a list of node identities.  `el.after(obj)` on an already-attached node
physically moves it: the model first erases the node and then reinserts it
after the reference node. -/

/-- What `lastObj` can point at: the `start` comment, a node, or the
JavaScript `undefined` that `existingObjs[-1]` would produce (only reachable
with duplicate keys; no claim reaches it). -/
inductive NodeRef where
  | start
  | node (n : Nat)
  | undefRef
deriving DecidableEq, Repr

/-- Insert `obj` right after the first occurrence of `p`; if `p` is absent
(unreachable under the walk invariant) the node is appended. -/
def insertAfterNode (p obj : Nat) : List Nat → List Nat
  | [] => [obj]
  | h :: t => if h = p then h :: obj :: t else h :: insertAfterNode p obj t

/-- `ref.after(obj)`: detach `obj` if attached, then insert it after `ref`
(`start` inserts at the front; `after` on `undefined` would throw in
JavaScript and leaves the model unchanged). -/
def insertAfter (dom : List Nat) (ref : NodeRef) (obj : Nat) : List Nat :=
  let d := dom.erase obj
  match ref with
  | .start => obj :: d
  | .node p => insertAfterNode p obj d
  | .undefRef => d

/-- The state of the key walk: current document order, the last placed
object, the not-yet-reused `(key, node)` pairs, the accumulated `newObjs`,
the add events, the physically moved nodes, and the fresh-identity
counter. -/
structure EachWalkState where
  dom : List Nat
  lastObj : NodeRef
  existing : List (String × Nat)
  objs : List (Option Nat)
  addedKeys : List String
  movedNodes : List Nat
  fresh : Nat
deriving Repr

/-- One iteration of the `newKeys.forEach` walk. -/
def eachStep (keysToAdd : List String) (s : EachWalkState) (key : String) : EachWalkState :=
  if keysToAdd.contains key then
    let obj := s.fresh
    { dom := insertAfter s.dom s.lastObj obj
      lastObj := .node obj
      existing := s.existing
      objs := s.objs ++ [some obj]
      addedKeys := s.addedKeys ++ [key]
      movedNodes := s.movedNodes
      fresh := s.fresh + 1 }
  else
    if h : s.existing.findIdx (fun p => p.1 == key) < s.existing.length then
      let obj := (s.existing.get ⟨s.existing.findIdx (fun p => p.1 == key), h⟩).2
      { dom := if 0 < s.existing.findIdx (fun p => p.1 == key) then insertAfter s.dom s.lastObj obj else s.dom
        lastObj := .node obj
        existing := s.existing.eraseIdx (s.existing.findIdx (fun p => p.1 == key))
        objs := s.objs ++ [some obj]
        addedKeys := s.addedKeys
        movedNodes := if 0 < s.existing.findIdx (fun p => p.1 == key) then s.movedNodes ++ [obj] else s.movedNodes
        fresh := s.fresh }
    else
      { dom := s.dom
        lastObj := .undefRef
        existing := s.existing.dropLast
        objs := s.objs ++ [none]
        addedKeys := s.addedKeys
        movedNodes := s.movedNodes
        fresh := s.fresh }

/-- The result of one reconciliation pass. -/
structure EachResult where
  removedPairs : List (String × Nat)
  walk : EachWalkState
deriving Repr

/-- One `#eachDirective.refresh` reconciliation: diff the key sets, detach
removed nodes (firing their removal events), then walk the target keys,
instantiating fresh nodes or reusing (and moving when `indexOf > 0`)
existing ones.  `prevPairs` are the previous `(key, node)` pairs in document
order; fresh node identities start at `fresh0`. -/
def eachReconcile (prevPairs : List (String × Nat)) (newKeys : List String) (fresh0 : Nat) : EachResult :=
  let prevKeys := prevPairs.map (fun p => p.1)
  let keysToRemove := prevKeys.filter (fun k => ! newKeys.contains k)
  let keysToAdd := newKeys.filter (fun k => ! prevKeys.contains k)
  let removedPairs := prevPairs.filter (fun p => keysToRemove.contains p.1)
  let survivors := prevPairs.filter (fun p => ! keysToRemove.contains p.1)
  let dom0 := (prevPairs.map (fun p => p.2)).filter
    (fun n => ! (removedPairs.map (fun p => p.2)).contains n)
  let init : EachWalkState :=
    { dom := dom0, lastObj := .start, existing := survivors, objs := [],
      addedKeys := [], movedNodes := [], fresh := fresh0 }
  { removedPairs := removedPairs, walk := newKeys.foldl (eachStep keysToAdd) init }

/-- `n` sits immediately after the reference in the document order. -/
def immediatelyAfter (dom : List Nat) (ref : NodeRef) (n : Nat) : Prop :=
  match ref with
  | .start => dom.head? = some n
  | .node p => ∃ l r, dom = l ++ p :: n :: r
  | .undefRef => False

/-- The walk invariant: the document order is the placed nodes followed by
the pending existing nodes, `lastObj` mirrors the last placed entry, node
identities are distinct, and the fresh counter is above every attached
node. -/
def EachInv (s : EachWalkState) : Prop :=
  s.dom = s.objs.filterMap id ++ s.existing.map (fun p => p.2) ∧
  s.lastObj = (match s.objs.getLast? with
    | Option.none => NodeRef.start
    | some (some n) => NodeRef.node n
    | some Option.none => NodeRef.undefRef) ∧
  s.dom.Nodup ∧
  (∀ n ∈ s.dom, n < s.fresh)

/-! ### The refresh pass (`#refresh` / directive `refresh` loops)

The directive refresh methods iterate their binding lists with `forEach`
and contain no `try`/`catch`; an exception thrown while evaluating one
binding's expression propagates and ends the whole pass.  The pass is
modelled as collecting each binding's freshly evaluated value in order. -/

def refreshBindings (fuel : Nat) (ctx : EvalCtx) : List String → JRes (List JSVal)
  | [] => .ok []
  | e :: rest => do
      let v ← evalExprF fuel ctx e
      let vs ← refreshBindings fuel ctx rest
      pure (v :: vs)


/-! ### Concrete states and bindings exercised by the claims -/

/-- Empty state, no custom functions, empty index map. -/
def emptyCtx : EvalCtx := ⟨.obj [], [], []⟩

/-- State `\x7b n: null \x7d`. -/
def nullCtx : EvalCtx := ⟨.obj [("n", .null)], [], []⟩

/-- State `\x7b a: null \x7d`. -/
def aNullCtx : EvalCtx := ⟨.obj [("a", .null)], [], []⟩

/-- The source collection of the pipeline claim:
`[\x7bt:"Gas",d:5\x7d, \x7bt:"Gas",d:1\x7d, \x7bt:"Ice",d:9\x7d]`. -/
def planetsState : JSVal :=
  .obj [("planets", .arr [
    .obj [("t", .str "Gas"), ("d", .num (.fin (JQ.ofNat 5)))],
    .obj [("t", .str "Gas"), ("d", .num (.fin (JQ.ofNat 1)))],
    .obj [("t", .str "Ice"), ("d", .num (.fin (JQ.ofNat 9)))]])]

def planetsCtx : EvalCtx := ⟨planetsState, [], []⟩

/-- `data-each="@p in planets" data-where='@p.t == "Gas"' data-orderby="@p.d"`. -/
def planetsClauses : EachClauses :=
  { list := "planets", aliasName := "p", key := "@p.d",
    whereE := some "@p.t == \"Gas\"", orderby := some "@p.d" }

/-- State `\x7b items: ["X", "X", "Y"] \x7d` for the distinct claim. -/
def distinctCtx : EvalCtx := ⟨.obj [("items", .arr [.str "X", .str "X", .str "Y"])], [], []⟩

/-- `data-each="@x in items" data-key="@x" data-distinct="@x"`. -/
def distinctClauses : EachClauses :=
  { list := "items", aliasName := "x", key := "@x", distinct := some "@x" }

/-- State `\x7b items: [\x7bk:"a.b"\x7d, \x7bk:"a_b"\x7d] \x7d` for the key-collision claim. -/
def collideCtx : EvalCtx :=
  ⟨.obj [("items", .arr [.obj [("k", .str "a.b")], .obj [("k", .str "a_b")]])], [], []⟩

/-- `data-each="@x in items" data-key="@x.k"`. -/
def collideClauses : EachClauses := { list := "items", aliasName := "x", key := "@x.k" }

/-! ### Claim theorems -/

/-- C3: the expression parser/evaluator honors the declared precedence and
associativity tables: `"2 + 3 * 4"` evaluates to 14, `"2 ** 3 ** 2"` to 512
(exponentiation right-associative), and `"10 - 3 - 2"` to 5 (additive
operators left-associative). -/
theorem C3_precedence_associativity :
    evalExprF 100 emptyCtx "2 + 3 * 4" = .ok (.num (.fin (JQ.ofNat 14))) ∧
    evalExprF 100 emptyCtx "2 ** 3 ** 2" = .ok (.num (.fin (JQ.ofNat 512))) ∧
    evalExprF 100 emptyCtx "10 - 3 - 2" = .ok (.num (.fin (JQ.ofNat 5))) :=
  ⟨rfl, rfl, rfl⟩

/-- C4 counterexample: the claim says the untaken branch's subtree is never
resolved, so a ternary with a true condition can never raise from its else
branch; but `resolveLiterals` resolves every path leaf of both branches
before the ternary selects, so `"true ? 1 : n.x"` with `n = null` throws a
TypeError even though the condition is true and the taken branch is `1`. -/
theorem C4_untaken_branch_counterexample :
    evalExprF 100 nullCtx "true ? 1 : n.x"
      = .error (.typeError "Cannot read properties of null") :=
  rfl

/-- C4 amended: ternary evaluation returns the value of the branch selected
by the condition (`"true ? 1 : 2"` gives 1, `"false ? 1 : 2"` gives 2), and
`"true ? 1 : undefinedPath.x"` evaluates to 1 because an absent path resolves
to `undefined` without raising; however leaves of both branches are resolved
eagerly before the selection, so an untaken branch can still raise (a null
member access, previous theorem). -/
theorem C4_ternary_selects_taken_branch :
    evalExprF 100 emptyCtx "true ? 1 : undefinedPath.x" = .ok (.num (.fin (JQ.ofNat 1))) ∧
    evalExprF 100 emptyCtx "true ? 1 : 2" = .ok (.num (.fin (JQ.ofNat 1))) ∧
    evalExprF 100 emptyCtx "false ? 1 : 2" = .ok (.num (.fin (JQ.ofNat 2))) :=
  ⟨rfl, rfl, rfl⟩

/-- C10: the repeater key is the stringified evaluated key expression with
every character outside `[a-zA-Z0-9]` replaced by `_`, prefixed with the
repeater instance index and `_`; hence the raw key values `"a.b"` and
`"a_b"` — distinct in the source — produce the identical key `"0_a_b"` and
collide. -/
theorem C10_key_sanitization_collision :
    eachKeyFor 100 collideCtx collideClauses 0 0 = .ok "0_a_b" ∧
    eachKeyFor 100 collideCtx collideClauses 0 1 = .ok "0_a_b" ∧
    pathReduce collideCtx.state ["items", "0", "k"] = .ok (.str "a.b") ∧
    pathReduce collideCtx.state ["items", "1", "k"] = .ok (.str "a_b") ∧
    ("a.b" : String) ≠ "a_b" ∧
    sanitizeKey "a.b" = "a_b" ∧ sanitizeKey "a_b" = "a_b" :=
  ⟨rfl, rfl, rfl, rfl, by decide, rfl, rfl⟩

/-- C5 counterexample: with source values `["X", "X", "Y"]` and distinct key
`@x`, the claim (keep the last occurrence) predicts indices `[1, 2]`; the
code builds its `Map` from the reversed entry list, so later `set` calls
overwrite with the earlier source indices and the pipeline keeps `[0, 2]` —
the first occurrence of `"X"`, not the last. -/
theorem C5_distinct_keeps_first_counterexample :
    eachIndexes 100 distinctCtx distinctClauses = .ok [0, 2] ∧
    ([0, 2] : List Nat) ≠ [1, 2] :=
  ⟨rfl, by decide⟩

/-- C6 counterexample: path resolution is not total: with state
`\x7b a: null \x7d` the path string `"a.b"` makes the reducer evaluate
`null["b"]`, which throws a TypeError (the `x === undefined` guard does not
cover `null`), instead of resolving to `undefined`. -/
theorem C6_null_segment_counterexample :
    resolveValueF 100 aNullCtx "a.b"
      = .error (.typeError "Cannot read properties of null") :=
  rfl

/-- C8 counterexample: no directive refresh contains a `try`/`catch`, so an
evaluation error in one binding aborts the whole pass: with bindings
`["n.x", "1 + 1"]` over state `\x7b n: null \x7d` the pass dies on the first
binding's TypeError and the second binding — which updates fine when the
pass reaches it — is never updated. -/
theorem C8_error_aborts_pass_counterexample :
    refreshBindings 100 nullCtx ["n.x", "1 + 1"]
      = .error (.typeError "Cannot read properties of null") ∧
    refreshBindings 100 nullCtx ["1 + 1"] = .ok [.num (.fin (JQ.ofNat 2))] :=
  ⟨rfl, rfl⟩

/-- C7 counterexample: checking NaN twice returns `true` both times, because
the detector compares with `!==` and `NaN !== NaN`; the claim says the
second check of an identical value returns `false`. -/
theorem C7_nan_counterexample :
    (ChangeDetector.init.run [.num .nan, .num .nan]).2 = [true, true] :=
  rfl


/-- The memo after a successful `check` holds the checked value. -/
theorem check_true_updates (m : ChangeDetector) (v : JSVal) :
    (m.check v).2 = true → (m.check v).1.current = v := by
  cases hf : m.first <;> cases hs : jsStrictEq v m.current <;>
    simp [ChangeDetector.check, hf, hs]

/-- A failing `check` leaves the memo unchanged and the value was
strictly equal to the stored one. -/
theorem check_false_keeps (m : ChangeDetector) (v : JSVal) :
    (m.check v).2 = false → jsStrictEq v m.current = true ∧ (m.check v).1 = m := by
  cases hf : m.first <;> cases hs : jsStrictEq v m.current <;>
    simp [ChangeDetector.check, hf, hs]

/-- C7 amended: `check` returns true on the first call; thereafter it
returns true exactly when the value is `!==`-different from the stored
value (so NaN always re-triggers, previous theorem); a false result means
the value was `===` the stored one and the memo is unchanged, a true result
stores the value; consequently the second check of the same self-identical
(non-NaN) value returns false. -/
theorem C7_change_detector_behavior :
    (∀ v : JSVal, (ChangeDetector.init.check v).2 = true) ∧
    (∀ (m : ChangeDetector) (v : JSVal), m.first = false →
      ((m.check v).2 = true ↔ jsStrictEq v m.current = false)) ∧
    (∀ (m : ChangeDetector) (v : JSVal),
      (m.check v).1.first = false ∧
      ((m.check v).2 = true → (m.check v).1.current = v) ∧
      ((m.check v).2 = false → jsStrictEq v m.current = true ∧ (m.check v).1 = m)) ∧
    (∀ v : JSVal, jsStrictEq v v = true →
      ((ChangeDetector.init.check v).1.check v).2 = false) := by
  refine ⟨?_, ?_, ?_, ?_⟩
  · intro v
    rfl
  · intro m v hf
    cases hs : jsStrictEq v m.current <;> simp [ChangeDetector.check, hf, hs]
  · intro m v
    refine ⟨?_, check_true_updates m v, check_false_keeps m v⟩
    cases hf : m.first <;> cases hs : jsStrictEq v m.current <;>
      simp [ChangeDetector.check, hf, hs]
  · intro v hv
    show (ChangeDetector.check ⟨v, false⟩ v).2 = false
    simp [ChangeDetector.check, hv]

/-- C7 witness: the change detector at the value `3`, checked twice from a
fresh memo, returns false on the second check. -/
theorem C7_change_detector_witness :
    ((ChangeDetector.init.check (.num (.fin (JQ.ofNat 3)))).1.check
      (.num (.fin (JQ.ofNat 3)))).2 = false :=
  C7_change_detector_behavior.2.2.2 (.num (.fin (JQ.ofNat 3))) rfl

/-- `Except.error` short-circuits `bind` (definitional, recorded for `rw`). -/
theorem except_bind_error {α β : Type} (e : JErr) (f : α → JRes β) :
    (Except.error e >>= f) = Except.error e := rfl

/-- `Except.ok` feeds `bind` (definitional, recorded for `rw`). -/
theorem except_bind_ok {α β : Type} (a : α) (f : α → JRes β) :
    (Except.ok a >>= f) = f a := rfl

/-- C8 amended: there is no per-binding catch: if every binding before `e`
evaluates cleanly and `e`'s expression throws, the whole refresh pass
returns that error — the bindings after `e` are never evaluated (the result
does not depend on `post`) and none of the pass's bindings are updated. -/
theorem C8_error_aborts_refresh_pass :
    ∀ (fuel : Nat) (ctx : EvalCtx) (pre : List String) (e : String)
      (post : List String) (err : JErr) (vals : List JSVal),
      refreshBindings fuel ctx pre = .ok vals →
      evalExprF fuel ctx e = .error err →
      refreshBindings fuel ctx (pre ++ e :: post) = .error err := by
  intro fuel ctx pre
  induction pre with
  | nil =>
      intro e post err vals _ he
      simp only [List.nil_append, refreshBindings, he]
      rfl
  | cons a rest ih =>
      intro e post err vals hok he
      simp only [refreshBindings] at hok ⊢
      cases ha : evalExprF fuel ctx a with
      | error e2 =>
          rw [ha, except_bind_error] at hok
          exact absurd hok (by simp)
      | ok v =>
          rw [ha, except_bind_ok] at hok
          rw [except_bind_ok]
          cases hrest : refreshBindings fuel ctx rest with
          | error e3 =>
              rw [hrest, except_bind_error] at hok
              exact absurd hok (by simp)
          | ok vs =>
              have hmain := ih e post err vs hrest he
              simp only [List.append_eq]
              rw [hmain, except_bind_error]

/-- C8 witness: with state `\x7b n: null \x7d`, the pass over
`["1 + 1", "n.x", "2"]` aborts with the TypeError of the middle binding. -/
theorem C8_error_aborts_refresh_pass_witness :
    refreshBindings 100 nullCtx (["1 + 1"] ++ "n.x" :: ["2"])
      = .error (.typeError "Cannot read properties of null") :=
  C8_error_aborts_refresh_pass 100 nullCtx ["1 + 1"] "n.x" ["2"]
    (.typeError "Cannot read properties of null") [.num (.fin (JQ.ofNat 2))] rfl rfl


/-- Walking any path from `undefined` stays `undefined` (the
`x === undefined` guard). -/
theorem pathReduce_undef : ∀ (post : List String), pathReduce .undef post = .ok .undef := by
  intro post
  induction post with
  | nil => rfl
  | cons k rest ih => simpa [pathReduce, List.foldlM] using ih

theorem pathReduce_nil (state : JSVal) : pathReduce state [] = .ok state := rfl

theorem pathReduce_cons (state : JSVal) (k : String) (rest : List String) :
    pathReduce state (k :: rest)
      = (pathStep state k >>= fun y => pathReduce y rest) := by
  simp [pathReduce, List.foldlM]

/-- The path reducer splits over appended segment lists. -/
theorem pathReduce_append (state : JSVal) (l1 l2 : List String) :
    pathReduce state (l1 ++ l2)
      = (pathReduce state l1 >>= fun y => pathReduce y l2) := by
  induction l1 generalizing state with
  | nil => simp [pathReduce_nil, except_bind_ok]
  | cons k rest ih =>
      rw [List.cons_append, pathReduce_cons, pathReduce_cons]
      cases hs : pathStep state k with
      | error e => simp only [except_bind_error]
      | ok y =>
          simp only [except_bind_ok]
          exact ih y

/-- Reading a member off any non-`null`, non-`undefined` value succeeds. -/
theorem getMember_ok (x : JSVal) (k : String) (h1 : x ≠ .null) (h2 : x ≠ .undef) :
    ∃ v, getMember x k = .ok v := by
  cases x with
  | null => exact absurd rfl h1
  | undef => exact absurd rfl h2
  | bool b => exact ⟨_, rfl⟩
  | num n => exact ⟨_, rfl⟩
  | obj fs =>
      cases hl : fs.lookup k <;> simp [getMember, hl]
  | arr es =>
      simp only [getMember]
      split
      · simp
      · split
        · cases hg : es.get? (digitsToNat k.toList) <;> simp [hg]
        · simp
  | str str =>
      simp only [getMember]
      split
      · simp
      · split
        · cases hg : str.toList.get? (digitsToNat k.toList) <;> simp [hg]
        · simp

/-- A path step on any non-`null` value succeeds. -/
theorem pathStep_ok (x : JSVal) (k : String) (h1 : x ≠ .null) :
    ∃ w, pathStep x k = .ok w := by
  cases hx : jsStrictEq x .undef with
  | true => exact ⟨.undef, by simp [pathStep, hx]⟩
  | false =>
      have h2 : x ≠ .undef := by
        intro hh
        rw [hh] at hx
        simp [jsStrictEq] at hx
      obtain ⟨v, hv⟩ := getMember_ok x k h1 h2
      refine ⟨if jsStrictEq v .undef then .undef else v, ?_⟩
      simp only [pathStep, hx, Bool.false_eq_true, if_false]
      rw [hv, except_bind_ok]
      split <;> rfl

/-- A path step can only throw when the incoming value is `null`. -/
theorem pathStep_error_only_null (x : JSVal) (k : String) (e : JErr) :
    pathStep x k = .error e → x = .null := by
  intro h
  by_cases hx : x = .null
  · exact hx
  · obtain ⟨w, hw⟩ := pathStep_ok x k hx
    rw [hw] at h
    exact absurd h (by simp)

/-- C6 amended: (i) if some segment along the path is absent — its step
yields `undefined`, whatever was resolved before it — the whole resolution
is `undefined` and no error is raised from the remaining segments; (ii) the
reducer throws only when a `null` intermediate value is dereferenced (and
`#createPath` separately rejects prototype-chain segments up front, last
conjunct); the resulting `undefined` propagates through arithmetic and
comparison by the usual coercions (`missing + 1` is NaN,
`missing == null` is true). -/
theorem C6_path_resolution_totality :
    (∀ (state : JSVal) (pre : List String) (k : String) (post : List String) (y : JSVal),
       pathReduce state pre = .ok y → pathStep y k = .ok .undef →
       pathReduce state (pre ++ k :: post) = .ok .undef) ∧
    (∀ (state : JSVal) (segs : List String) (e : JErr),
       pathReduce state segs = .error e →
       ∃ pre k post, segs = pre ++ k :: post ∧ pathReduce state pre = .ok .null) ∧
    evalExprF 100 emptyCtx "missing + 1" = .ok (.num .nan) ∧
    evalExprF 100 emptyCtx "missing == null" = .ok (.bool true) ∧
    createPath [] "constructor" = .error (.error "Path includes forbidden keywords") := by
  refine ⟨?_, ?_, rfl, rfl, rfl⟩
  · intro state pre k post y h1 h2
    rw [pathReduce_append, h1, except_bind_ok, pathReduce_cons, h2, except_bind_ok]
    exact pathReduce_undef post
  · intro state segs
    induction segs generalizing state with
    | nil => intro e h; exact absurd h (by simp [pathReduce_nil])
    | cons k rest ih =>
        intro e h
        rw [pathReduce_cons] at h
        cases hs : pathStep state k with
        | error e2 =>
            refine ⟨[], k, rest, rfl, ?_⟩
            rw [pathReduce_nil, pathStep_error_only_null state k e2 hs]
        | ok y =>
            rw [hs, except_bind_ok] at h
            obtain ⟨pre2, k2, post2, heq, hnull⟩ := ih y e h
            refine ⟨k :: pre2, k2, post2, by rw [heq, List.cons_append], ?_⟩
            rw [pathReduce_cons, hs, except_bind_ok, hnull]

/-- C6 witness: in the empty state, the path `missing.x` resolves to
`undefined` — the absent first segment makes the whole path `undefined`
without an error. -/
theorem C6_path_resolution_totality_witness :
    pathReduce (JSVal.obj []) ([] ++ "missing" :: ["x"]) = .ok .undef :=
  C6_path_resolution_totality.1 (JSVal.obj []) [] "missing" ["x"] (JSVal.obj []) rfl rfl

/-- C2: the clause pipeline of `#eachDirective.refresh` is, by construction,
the fixed sequence where-filter → orderby-sort → distinct → skip → limit
(first conjunct, the monadic factoring of `eachIndexes` into its five named
stages); on the source `[\x7bt:"Gas",d:5\x7d, \x7bt:"Gas",d:1\x7d, \x7bt:"Ice",d:9\x7d]`
with filter `@p.t == "Gas"` and sort key `@p.d`, the ordered target before
skip/limit is the index list `[1, 0]`, i.e. the items with `d = 1` then
`d = 5`. -/
theorem C2_pipeline_order :
    (∀ (fuel : Nat) (ctx : EvalCtx) (b : EachClauses),
      eachIndexes fuel ctx b = do
        let skip ← match b.skipE with
          | some st => do pure (some (← evalExprF fuel ctx st))
          | none => pure none
        let limit ← match b.limitE with
          | some lt => do pure (some (← evalExprF fuel ctx lt))
          | none => pure none
        let indexes ← whereStage fuel ctx b
        let indexes ← orderbyStage fuel ctx b indexes
        let indexes ← distinctStage fuel ctx b indexes
        pure (limitStage limit (skipStage skip indexes))) ∧
    eachIndexes 100 planetsCtx planetsClauses = .ok [1, 0] ∧
    pathReduce planetsState ["planets", "1", "d"] = .ok (.num (.fin (JQ.ofNat 1))) ∧
    pathReduce planetsState ["planets", "0", "d"] = .ok (.num (.fin (JQ.ofNat 5))) :=
  ⟨fun _ _ _ => rfl, rfl, rfl, rfl⟩


/-! ### C5: the distinct clause keeps the first occurrence -/

/-- Entries of the `Map` built by the distinct stage when the distinct
values are strings. -/
def strEntries (l : List (String × Nat)) : List (JSVal × Nat) :=
  l.map (fun p => (JSVal.str p.1, p.2))

/-- Every key of the map is a string value. -/
def allStrKeys (m : List (JSVal × Nat)) : Prop :=
  ∀ e ∈ m, ∃ s, e.1 = JSVal.str s

theorem svz_str (a b : String) : sameValueZero (.str a) (.str b) = (a == b) := rfl

theorem svzLookup_nil (u : JSVal) : svzLookup [] u = none := rfl

theorem svzLookup_cons (e : JSVal × Nat) (rest : List (JSVal × Nat)) (u : JSVal) :
    svzLookup (e :: rest) u
      = if sameValueZero e.1 u then some e.2 else svzLookup rest u := by
  cases h : sameValueZero e.1 u <;> simp [svzLookup, List.find?, h]

/-- Updating entries at a different string key does not change a lookup. -/
theorem svzLookup_map_update_ne (m : List (JSVal × Nat)) (hm : allStrKeys m)
    (a v : String) (i : Nat) (hav : (a == v) = false) :
    svzLookup (m.map (fun e => if sameValueZero e.1 (.str a) then (e.1, i) else e)) (.str v)
      = svzLookup m (.str v) := by
  induction m with
  | nil => rfl
  | cons e rest ih =>
      obtain ⟨s, hs⟩ := hm e (by simp)
      have hrest : allStrKeys rest := fun x hx => hm x (by simp [hx])
      rw [List.map_cons]
      by_cases hs2a : (s == a) = true
      · have hsv : (s == v) = false := by
          cases h2 : s == v
          · rfl
          · rw [beq_iff_eq] at hs2a h2
            rw [← hs2a, h2] at hav
            simp at hav
        have hhead : (if sameValueZero e.1 (.str a) then (e.1, i) else e) = (e.1, i) := by
          rw [hs, svz_str, hs2a]
          simp
        rw [hhead, svzLookup_cons, svzLookup_cons, hs, svz_str, hsv]
        simp only [Bool.false_eq_true, if_false]
        exact ih hrest
      · have hs2a2 : (s == a) = false := by
          cases h2 : s == a
          · rfl
          · exact absurd h2 hs2a
        have hhead : (if sameValueZero e.1 (.str a) then (e.1, i) else e) = e := by
          rw [hs, svz_str, hs2a2]
          simp
        rw [hhead, svzLookup_cons, svzLookup_cons]
        cases h2v : sameValueZero e.1 (.str v)
        · simp only [Bool.false_eq_true, if_false]
          exact ih hrest
        · simp

/-- Updating entries at a present string key makes it read the new value. -/
theorem svzLookup_map_update_eq (m : List (JSVal × Nat)) (hm : allStrKeys m)
    (a : String) (i : Nat)
    (hany : (m.any fun e => sameValueZero e.1 (.str a)) = true) :
    svzLookup (m.map (fun e => if sameValueZero e.1 (.str a) then (e.1, i) else e)) (.str a)
      = some i := by
  induction m with
  | nil => simp at hany
  | cons e rest ih =>
      obtain ⟨s, hs⟩ := hm e (by simp)
      have hrest : allStrKeys rest := fun x hx => hm x (by simp [hx])
      rw [List.map_cons]
      by_cases hs2a : (s == a) = true
      · have hhead : (if sameValueZero e.1 (.str a) then (e.1, i) else e) = (e.1, i) := by
          rw [hs, svz_str, hs2a]
          simp
        rw [hhead, svzLookup_cons, hs, svz_str, hs2a]
        simp
      · have hs2a2 : (s == a) = false := by
          cases h2 : s == a
          · rfl
          · exact absurd h2 hs2a
        have hhead : (if sameValueZero e.1 (.str a) then (e.1, i) else e) = e := by
          rw [hs, svz_str, hs2a2]
          simp
        rw [hhead, svzLookup_cons, hs, svz_str, hs2a2]
        simp only [Bool.false_eq_true, if_false]
        rw [List.any_cons, hs, svz_str, hs2a2] at hany
        simp only [Bool.false_or] at hany
        exact ih hrest hany

/-- Lookup over a single appended entry. -/
theorem svzLookup_append_single (m : List (JSVal × Nat)) (kv : JSVal × Nat) (u : JSVal) :
    svzLookup (m ++ [kv]) u
      = (match svzLookup m u with
         | some x => some x
         | none => if sameValueZero kv.1 u then some kv.2 else none) := by
  induction m with
  | nil =>
      rw [List.nil_append, svzLookup_nil, svzLookup_cons, svzLookup_nil]
  | cons e rest ih =>
      rw [List.cons_append, svzLookup_cons, svzLookup_cons]
      cases h : sameValueZero e.1 u
      · simp only [if_false, Bool.false_eq_true]
        exact ih
      · simp

/-- A lookup over a map none of whose keys match is `none`. -/
theorem svzLookup_none_of_any_false (m : List (JSVal × Nat)) (u : JSVal)
    (h : (m.any fun e => sameValueZero e.1 u) = false) :
    svzLookup m u = none := by
  induction m with
  | nil => rfl
  | cons e rest ih =>
      rw [List.any_cons] at h
      rw [svzLookup_cons]
      cases h2 : sameValueZero e.1 u
      · simp only [if_false, Bool.false_eq_true]
        exact ih (by rw [h2] at h; simpa using h)
      · rw [h2] at h
        simp at h

/-- Looking a string key up after a `Map.set` with a string key: the set key
reads back the new value, others are untouched. -/
theorem svzLookup_insEntry (m : List (JSVal × Nat)) (hm : allStrKeys m)
    (a : String) (i : Nat) (v : String) :
    svzLookup (insEntry m (JSVal.str a, i)) (.str v)
      = if a == v then some i else svzLookup m (.str v) := by
  unfold insEntry
  by_cases hany : (m.any fun e => sameValueZero e.1 (.str a)) = true
  · rw [if_pos hany]
    by_cases hav : (a == v) = true
    · rw [beq_iff_eq] at hav
      rw [← hav]
      simp only [beq_self_eq_true, if_true]
      exact svzLookup_map_update_eq m hm a i hany
    · have hav2 : (a == v) = false := by
        cases h2 : a == v
        · rfl
        · exact absurd h2 hav
      rw [hav2]
      simp only [Bool.false_eq_true, if_false]
      exact svzLookup_map_update_ne m hm a v i hav2
  · have hanyf : (m.any fun e => sameValueZero e.1 (.str a)) = false := by
      cases h2 : m.any fun e => sameValueZero e.1 (.str a)
      · rfl
      · exact absurd h2 hany
    rw [if_neg hany, svzLookup_append_single]
    by_cases hav : (a == v) = true
    · rw [beq_iff_eq] at hav
      rw [← hav]
      rw [svzLookup_none_of_any_false m (.str a) hanyf]
      simp [svz_str]
    · have hav2 : (a == v) = false := by
        cases h2 : a == v
        · rfl
        · exact absurd h2 hav
      rw [hav2]
      simp only [Bool.false_eq_true, if_false]
      cases hlook : svzLookup m (.str v)
      · simp [svz_str, hav2]
      · simp


/-- `Map.set` with a string key preserves string-keyed-ness. -/
theorem allStrKeys_insEntry (m : List (JSVal × Nat)) (hm : allStrKeys m)
    (a : String) (i : Nat) : allStrKeys (insEntry m (.str a, i)) := by
  unfold insEntry
  split
  · intro e he
    rw [List.mem_map] at he
    obtain ⟨x, hx, hxe⟩ := he
    obtain ⟨s, hs⟩ := hm x hx
    by_cases hc : sameValueZero x.1 (.str a) = true
    · rw [hc] at hxe
      simp at hxe
      exact ⟨s, by rw [← hxe]; exact hs⟩
    · have : sameValueZero x.1 (.str a) = false := by
        cases h2 : sameValueZero x.1 (.str a)
        · rfl
        · exact absurd h2 hc
      rw [this] at hxe
      simp at hxe
      exact ⟨s, by rw [← hxe, hs]⟩
  · intro e he
    rw [List.mem_append] at he
    cases he with
    | inl h => exact hm e h
    | inr h =>
        rw [List.mem_singleton] at h
        exact ⟨a, by rw [h]⟩

/-- The map folded from string-keyed entries is string-keyed. -/
theorem allStrKeys_foldr (l : List (String × Nat)) :
    allStrKeys ((strEntries l).foldr (fun kv m => insEntry m kv) []) := by
  induction l with
  | nil => intro e he; simp [strEntries] at he
  | cons p rest ih =>
      exact allStrKeys_insEntry _ ih p.1 p.2

/-- The `Map` folded right over string-keyed entries answers the FIRST
occurrence of each distinct key. -/
theorem svzLookup_foldr_first (l : List (String × Nat)) (v : String) :
    svzLookup ((strEntries l).foldr (fun kv m => insEntry m kv) []) (.str v)
      = svzLookup (strEntries l) (.str v) := by
  induction l with
  | nil => rfl
  | cons p rest ih =>
      show svzLookup (insEntry ((strEntries rest).foldr (fun kv m => insEntry m kv) []) (.str p.1, p.2)) (.str v) = _
      rw [svzLookup_insEntry _ (allStrKeys_foldr rest) p.1 p.2 v, ih]
      show _ = svzLookup ((.str p.1, p.2) :: strEntries rest) (.str v)
      rw [svzLookup_cons, svz_str]

/-- C5 amended: the distinct clause keeps, per distinct computed value, the
FIRST occurrence in pipeline order and drops all later ones: the `Map`
built from the reversed entry list lets earlier source entries overwrite
later ones, so it answers the first occurrence of each (string-valued)
distinct key — concretely, source values `["X", "X", "Y"]` keep indices
`[0, 2]`. -/
theorem C5_distinct_keeps_first_occurrence :
    eachIndexes 100 distinctCtx distinctClauses = .ok [0, 2] ∧
    (∀ (l : List (String × Nat)) (v : String),
      svzLookup (jsMapFromEntries (strEntries l).reverse) (.str v)
        = svzLookup (strEntries l) (.str v)) := by
  refine ⟨rfl, ?_⟩
  intro l v
  rw [jsMapFromEntries, List.foldl_reverse]
  exact svzLookup_foldr_first l v


/-! ### C9: node identity is preserved for surviving keys -/

/-- Every walk step appends exactly one entry to `newObjs`. -/
theorem eachStep_objs (kta : List String) (s : EachWalkState) (key : String) :
    ∃ x, (eachStep kta s key).objs = s.objs ++ [x] := by
  unfold eachStep
  split
  · exact ⟨_, rfl⟩
  · split
    · exact ⟨_, rfl⟩
    · exact ⟨_, rfl⟩

/-- `newObjs` grows monotonically along the walk. -/
theorem eachWalk_objs_prefix (kta : List String) :
    ∀ (keys : List String) (s : EachWalkState),
      ∃ delta, (keys.foldl (eachStep kta) s).objs = s.objs ++ delta := by
  intro keys
  induction keys with
  | nil => exact fun s => ⟨[], by simp⟩
  | cons key rest ih =>
      intro s
      obtain ⟨x, hx⟩ := eachStep_objs kta s key
      obtain ⟨delta, hd⟩ := ih (eachStep kta s key)
      exact ⟨x :: delta, by rw [List.foldl_cons, hd, hx, List.append_assoc]; rfl⟩

/-- A successful association lookup pins down `findIdx` and the entry it
finds: the first entry with the looked-up key. -/
theorem findIdx_of_lookup :
    ∀ (l : List (String × Nat)) (k : String) (n : Nat),
      l.lookup k = some n →
      ∃ h : l.findIdx (fun p => p.1 == k) < l.length,
        l.get ⟨l.findIdx (fun p => p.1 == k), h⟩ = (k, n) := by
  intro l
  induction l with
  | nil => intro k n h; simp [List.lookup] at h
  | cons e rest ih =>
      intro k n h
      obtain ⟨k2, v⟩ := e
      rw [List.lookup] at h
      cases hb : k == k2 with
      | true =>
          rw [hb] at h
          simp only [] at h
          have hv : v = n := by
            cases h
            rfl
          have hk : k2 = k := by
            rw [beq_iff_eq] at hb
            exact hb.symm
          have hb2 : (k2 == k) = true := by rw [beq_iff_eq]; exact hk
          refine ⟨by simp [List.findIdx_cons, hb2], ?_⟩
          simp [List.findIdx_cons, hb2, hk, hv]
      | false =>
          rw [hb] at h
          simp only [] at h
          have hb2 : (k2 == k) = false := by
            cases h2 : k2 == k
            · rfl
            · rw [beq_iff_eq] at h2
              rw [h2] at hb
              simp at hb
          obtain ⟨h2, hget⟩ := ih k n h
          have hlt : ((k2, v) :: rest).findIdx (fun p => p.1 == k) < ((k2, v) :: rest).length := by
            rw [List.findIdx_cons]
            show (bif (k2 == k) then 0 else rest.findIdx (fun p => p.1 == k) + 1) < rest.length + 1
            rw [hb2]
            simp only [cond_false]
            exact Nat.succ_lt_succ h2
          refine ⟨hlt, ?_⟩
          simp only [List.findIdx_cons, hb2, cond_false]
          exact hget

/-- Erasing an entry with a different key does not change a lookup. -/
theorem lookup_eraseIdx_ne :
    ∀ (l : List (String × Nat)) (i : Nat) (k : String) (h : i < l.length),
      (l.get ⟨i, h⟩).1 ≠ k →
      (l.eraseIdx i).lookup k = l.lookup k := by
  intro l
  induction l with
  | nil => intro i k h; simp at h
  | cons e rest ih =>
      intro i k h hne
      obtain ⟨k2, v⟩ := e
      cases i with
      | zero =>
          simp only [List.get] at hne
          have hb : (k == k2) = false := by
            cases h2 : k == k2
            · rfl
            · rw [beq_iff_eq] at h2
              exact absurd h2.symm hne
          show List.lookup k rest = _
          rw [List.lookup, hb]
      | succ j =>
          simp only [List.get] at hne
          have hj : j < rest.length := by simp at h; omega
          have hrec := ih j k hj hne
          show List.lookup k ((k2, v) :: rest.eraseIdx j) = _
          rw [List.lookup, List.lookup]
          cases h2 : k == k2
          · simpa using hrec
          · rfl

/-- A key occurring among the association keys has a lookup value. -/
theorem lookup_isSome_of_mem_keys :
    ∀ (l : List (String × Nat)) (k : String),
      k ∈ l.map (fun p => p.1) → ∃ m, l.lookup k = some m := by
  intro l
  induction l with
  | nil => intro k h; simp at h
  | cons e rest ih =>
      intro k h
      obtain ⟨k2, v⟩ := e
      rw [List.map_cons, List.mem_cons] at h
      cases h2 : k == k2
      · have hk : k ∈ rest.map (fun p => p.1) := by
          cases h with
          | inl hh =>
              have hne : k ≠ k2 := by
                intro he
                rw [he] at h2
                simp at h2
              exact absurd hh hne
          | inr hh => exact hh
        obtain ⟨m, hm⟩ := ih k hk
        exact ⟨m, by rw [List.lookup, h2]; exact hm⟩
      · exact ⟨v, by rw [List.lookup, h2]⟩

/-- Filtering by a key predicate that holds at `k` preserves the lookup. -/
theorem lookup_filter_keep :
    ∀ (l : List (String × Nat)) (q : String → Bool) (k : String),
      q k = true →
      (l.filter (fun p => q p.1)).lookup k = l.lookup k := by
  intro l
  induction l with
  | nil => intro q k _; rfl
  | cons e rest ih =>
      intro q k hq
      obtain ⟨k2, v⟩ := e
      cases hb : k == k2
      · cases hq2 : q k2
        · rw [List.filter_cons]
          simp only [hq2, Bool.false_eq_true, if_false]
          rw [List.lookup, hb]
          simp only [cond_false]
          exact ih q k hq
        · rw [List.filter_cons]
          simp only [hq2, if_true]
          rw [List.lookup, List.lookup, hb]
          exact ih q k hq
      · have hk : k2 = k := by
          rw [beq_iff_eq] at hb
          exact hb.symm
        have hq2 : q k2 = true := by rw [hk]; exact hq
        rw [List.filter_cons]
        simp only [hq2, if_true]
        rw [List.lookup, List.lookup, hb]

/-! ### The `data-each` reconciler: node identity (C9) and move minimality (C1) -/

/-- A successful lookup means the key occurs among the association keys. -/
theorem mem_keys_of_lookup :
    ∀ (l : List (String × Nat)) (k : String) (n : Nat),
      l.lookup k = some n → k ∈ l.map (fun p => p.1) := by
  intro l
  induction l with
  | nil => intro k n h; simp [List.lookup] at h
  | cons e rest ih =>
      intro k n h
      obtain ⟨k2, v⟩ := e
      rw [List.lookup] at h
      cases hb : k == k2
      · rw [hb] at h
        simp only [] at h
        exact List.mem_cons_of_mem _ (ih k n h)
      · rw [beq_iff_eq] at hb
        subst hb
        simp

/-- The add branch of the walk step, as a record equation. -/
theorem eachStep_add_eq (kta : List String) (s : EachWalkState) (key : String)
    (h : kta.contains key = true) :
    eachStep kta s key =
      { dom := insertAfter s.dom s.lastObj s.fresh
        lastObj := .node s.fresh
        existing := s.existing
        objs := s.objs ++ [some s.fresh]
        addedKeys := s.addedKeys ++ [key]
        movedNodes := s.movedNodes
        fresh := s.fresh + 1 } := by
  simp only [eachStep, h, if_true]

/-- The reuse branch of the walk step, as a record equation. -/
theorem eachStep_reuse_eq (kta : List String) (s : EachWalkState) (key : String)
    (h1 : kta.contains key = false)
    (h2 : s.existing.findIdx (fun p => p.1 == key) < s.existing.length) :
    eachStep kta s key =
      { dom := if 0 < s.existing.findIdx (fun p => p.1 == key) then insertAfter s.dom s.lastObj ((s.existing.get ⟨s.existing.findIdx (fun p => p.1 == key), h2⟩).2) else s.dom
        lastObj := .node ((s.existing.get ⟨s.existing.findIdx (fun p => p.1 == key), h2⟩).2)
        existing := s.existing.eraseIdx (s.existing.findIdx (fun p => p.1 == key))
        objs := s.objs ++ [some ((s.existing.get ⟨s.existing.findIdx (fun p => p.1 == key), h2⟩).2)]
        addedKeys := s.addedKeys
        movedNodes := if 0 < s.existing.findIdx (fun p => p.1 == key) then s.movedNodes ++ [(s.existing.get ⟨s.existing.findIdx (fun p => p.1 == key), h2⟩).2] else s.movedNodes
        fresh := s.fresh } := by
  simp only [eachStep, h1, Bool.false_eq_true, if_false, dif_pos h2]

/-- The unfound branch of the walk step, as a record equation. -/
theorem eachStep_unfound_eq (kta : List String) (s : EachWalkState) (key : String)
    (h1 : kta.contains key = false)
    (h2 : ¬ s.existing.findIdx (fun p => p.1 == key) < s.existing.length) :
    eachStep kta s key =
      { dom := s.dom
        lastObj := .undefRef
        existing := s.existing.dropLast
        objs := s.objs ++ [none]
        addedKeys := s.addedKeys
        movedNodes := s.movedNodes
        fresh := s.fresh } := by
  simp only [eachStep, h1, Bool.false_eq_true, if_false, dif_neg h2]

/-- A step adds a key to `addedKeys` only from `keysToAdd`. -/
theorem eachStep_addedKeys (kta : List String) (s : EachWalkState) (key : String) :
    ∀ j ∈ (eachStep kta s key).addedKeys, j ∈ s.addedKeys ∨ kta.contains j = true := by
  intro j hj
  cases hc : kta.contains key
  · by_cases h2 : s.existing.findIdx (fun p => p.1 == key) < s.existing.length
    · rw [eachStep_reuse_eq kta s key hc h2] at hj
      exact Or.inl hj
    · rw [eachStep_unfound_eq kta s key hc h2] at hj
      exact Or.inl hj
  · rw [eachStep_add_eq kta s key hc] at hj
    have hj2 : j ∈ s.addedKeys ++ [key] := hj
    rw [List.mem_append] at hj2
    cases hj2 with
    | inl h => exact Or.inl h
    | inr h =>
        rw [List.mem_singleton] at h
        exact Or.inr (h ▸ hc)

/-- Along the whole walk, `addedKeys` only grows with keys from `keysToAdd`. -/
theorem eachWalk_addedKeys (kta : List String) :
    ∀ (keys : List String) (s : EachWalkState),
      ∀ j ∈ (keys.foldl (eachStep kta) s).addedKeys, j ∈ s.addedKeys ∨ kta.contains j = true := by
  intro keys
  induction keys with
  | nil => intro s j hj; exact Or.inl hj
  | cons key rest ih =>
      intro s j hj
      rw [List.foldl_cons] at hj
      cases ih (eachStep kta s key) j hj with
      | inl h =>
          cases eachStep_addedKeys kta s key j h with
          | inl h2 => exact Or.inl h2
          | inr h2 => exact Or.inr h2
      | inr h => exact Or.inr h

/-- Main walk lemma: a key that is not in `keysToAdd`, whose `(key, node)`
pair is pending, gets exactly its old node recorded in `newObjs` at its key
position, provided every not-to-add walk key has a pending pair. -/
theorem eachWalk_keeps (kta : List String) :
    ∀ (keys : List String) (s : EachWalkState) (k : String) (n : Nat),
      keys.Nodup →
      kta.contains k = false →
      k ∈ keys →
      s.existing.lookup k = some n →
      (∀ j ∈ keys, kta.contains j = false → ∃ m, s.existing.lookup j = some m) →
      ∃ delta, (keys.foldl (eachStep kta) s).objs = s.objs ++ delta ∧
        (keys.zip delta).lookup k = some (some n) := by
  intro keys
  induction keys with
  | nil => intro s k n _ _ hk; exact absurd hk (List.not_mem_nil k)
  | cons key rest ih =>
      intro s k n hnd hkta hk hlook hall
      rw [List.foldl_cons]
      by_cases hek : k = key
      · subst hek
        obtain ⟨hfi, hget⟩ := findIdx_of_lookup s.existing k n hlook
        have ho1 : (eachStep kta s k).objs = s.objs ++ [some n] := by
          rw [eachStep_reuse_eq kta s k hkta hfi, hget]
        obtain ⟨delta2, hd2⟩ := eachWalk_objs_prefix kta rest (eachStep kta s k)
        refine ⟨some n :: delta2, ?_, ?_⟩
        · rw [hd2, ho1, List.append_assoc]
          rfl
        · rw [List.zip_cons_cons, List.lookup]
          have hself : (k == k) = true := beq_self_eq_true k
          rw [hself]
      · have hk2 : k ∈ rest := by
          cases List.mem_cons.mp hk with
          | inl h => exact absurd h hek
          | inr h => exact h
        have hbk : (k == key) = false := beq_false_of_ne hek
        cases hc : kta.contains key
        · obtain ⟨m, hm⟩ := hall key (List.mem_cons_self key rest) hc
          obtain ⟨hfi, hget⟩ := findIdx_of_lookup s.existing key m hm
          have hkey1 : (s.existing.get ⟨s.existing.findIdx (fun p => p.1 == key), hfi⟩).1 = key := by
            rw [hget]
          have he1 : (eachStep kta s key).existing = s.existing.eraseIdx (s.existing.findIdx (fun p => p.1 == key)) := by
            rw [eachStep_reuse_eq kta s key hc hfi]
          have ho1 : (eachStep kta s key).objs = s.objs ++ [some m] := by
            rw [eachStep_reuse_eq kta s key hc hfi, hget]
          have hlook2 : (eachStep kta s key).existing.lookup k = some n := by
            rw [he1]
            rw [lookup_eraseIdx_ne s.existing (s.existing.findIdx (fun p => p.1 == key)) k hfi (by rw [hkey1]; exact fun he => hek he.symm)]
            exact hlook
          have hall2 : ∀ j ∈ rest, kta.contains j = false →
              ∃ m2, (eachStep kta s key).existing.lookup j = some m2 := by
            intro j hj hjf
            obtain ⟨m2, hm2⟩ := hall j (List.mem_cons_of_mem key hj) hjf
            have hjk : j ≠ key := by
              intro he
              subst he
              exact (List.nodup_cons.mp hnd).1 hj
            refine ⟨m2, ?_⟩
            rw [he1]
            rw [lookup_eraseIdx_ne s.existing (s.existing.findIdx (fun p => p.1 == key)) j hfi (by rw [hkey1]; exact fun he => hjk he.symm)]
            exact hm2
          obtain ⟨delta2, hd2, hz⟩ := ih (eachStep kta s key) k n (List.nodup_cons.mp hnd).2 hkta hk2 hlook2 hall2
          refine ⟨some m :: delta2, ?_, ?_⟩
          · rw [hd2, ho1, List.append_assoc]
            rfl
          · rw [List.zip_cons_cons, List.lookup, hbk]
            exact hz
        · have he1 : (eachStep kta s key).existing = s.existing := by
            rw [eachStep_add_eq kta s key hc]
          have ho1 : (eachStep kta s key).objs = s.objs ++ [some s.fresh] := by
            rw [eachStep_add_eq kta s key hc]
          have hall2 : ∀ j ∈ rest, kta.contains j = false →
              ∃ m2, (eachStep kta s key).existing.lookup j = some m2 := by
            intro j hj hjf
            rw [he1]
            exact hall j (List.mem_cons_of_mem key hj) hjf
          obtain ⟨delta2, hd2, hz⟩ := ih (eachStep kta s key) k n (List.nodup_cons.mp hnd).2 hkta hk2 (by rw [he1]; exact hlook) hall2
          refine ⟨some s.fresh :: delta2, ?_, ?_⟩
          · rw [hd2, ho1, List.append_assoc]
            rfl
          · rw [List.zip_cons_cons, List.lookup, hbk]
            exact hz

/-- C9 (confirmed): across an each-repeater refresh, a key present in both
the previous pairs and the new target keys keeps its node: the walk records
that key's old node (never a fresh one) at the key's position, the key fires
no add event, and no removed pair carries it. -/
theorem C9_node_identity_preserved
    (prevPairs : List (String × Nat)) (newKeys : List String) (fresh0 : Nat)
    (k : String) (n : Nat)
    (hnd : newKeys.Nodup)
    (hprev : prevPairs.lookup k = some n)
    (hnew : newKeys.contains k = true) :
    (newKeys.zip (eachReconcile prevPairs newKeys fresh0).walk.objs).lookup k
        = some (some n) ∧
    (eachReconcile prevPairs newKeys fresh0).walk.addedKeys.contains k = false ∧
    ∀ p ∈ (eachReconcile prevPairs newKeys fresh0).removedPairs, p.1 ≠ k := by
  have hkmem : k ∈ newKeys := List.elem_iff.mp hnew
  have hkprev : k ∈ prevPairs.map (fun p => p.1) := mem_keys_of_lookup prevPairs k n hprev
  have hqk : (! ((prevPairs.map (fun p => p.1)).filter (fun k3 => ! newKeys.contains k3)).contains k) = true := by
    cases hc : ((prevPairs.map (fun p => p.1)).filter (fun k3 => ! newKeys.contains k3)).contains k
    · rfl
    · have hm := List.elem_iff.mp hc
      rw [List.mem_filter] at hm
      have hm2 := hm.2
      rw [hnew] at hm2
      simp at hm2
  have hsurv : (prevPairs.filter (fun p => ! ((prevPairs.map (fun q2 => q2.1)).filter (fun k3 => ! newKeys.contains k3)).contains p.1)).lookup k = some n :=
    (lookup_filter_keep prevPairs (fun k2 => ! ((prevPairs.map (fun q2 => q2.1)).filter (fun k3 => ! newKeys.contains k3)).contains k2) k hqk).trans hprev
  have hkta : (newKeys.filter (fun k2 => ! (prevPairs.map (fun p => p.1)).contains k2)).contains k = false := by
    cases hc : (newKeys.filter (fun k2 => ! (prevPairs.map (fun p => p.1)).contains k2)).contains k
    · rfl
    · have hm := List.elem_iff.mp hc
      rw [List.mem_filter] at hm
      have hp : (prevPairs.map (fun p => p.1)).contains k = true := List.elem_iff.mpr hkprev
      have hm2 := hm.2
      rw [hp] at hm2
      simp at hm2
  have hall : ∀ j ∈ newKeys,
      (newKeys.filter (fun k2 => ! (prevPairs.map (fun p => p.1)).contains k2)).contains j = false →
      ∃ m, (prevPairs.filter (fun p => ! ((prevPairs.map (fun q2 => q2.1)).filter (fun k3 => ! newKeys.contains k3)).contains p.1)).lookup j = some m := by
    intro j hj hjf
    have hjprev : (prevPairs.map (fun p => p.1)).contains j = true := by
      cases hc : (prevPairs.map (fun p => p.1)).contains j
      · exfalso
        have hmem : j ∈ newKeys.filter (fun k2 => ! (prevPairs.map (fun p => p.1)).contains k2) := by
          rw [List.mem_filter]
          exact ⟨hj, by rw [hc]; rfl⟩
        have hcont : (newKeys.filter (fun k2 => ! (prevPairs.map (fun p => p.1)).contains k2)).contains j = true :=
          List.elem_iff.mpr hmem
        rw [hjf] at hcont
        cases hcont
      · rfl
    obtain ⟨m, hm⟩ := lookup_isSome_of_mem_keys prevPairs j (List.elem_iff.mp hjprev)
    have hjq : (! ((prevPairs.map (fun q2 => q2.1)).filter (fun k3 => ! newKeys.contains k3)).contains j) = true := by
      cases hc : ((prevPairs.map (fun q2 => q2.1)).filter (fun k3 => ! newKeys.contains k3)).contains j
      · rfl
      · have hm2 := List.elem_iff.mp hc
        rw [List.mem_filter] at hm2
        have hnj : newKeys.contains j = true := List.elem_iff.mpr hj
        have hm3 := hm2.2
        rw [hnj] at hm3
        simp at hm3
    exact ⟨m, (lookup_filter_keep prevPairs (fun k2 => ! ((prevPairs.map (fun q2 => q2.1)).filter (fun k3 => ! newKeys.contains k3)).contains k2) j hjq).trans hm⟩
  obtain ⟨delta, hdelta, hzip⟩ :=
    eachWalk_keeps (newKeys.filter (fun k2 => ! (prevPairs.map (fun p => p.1)).contains k2)) newKeys
      { dom := (prevPairs.map (fun p => p.2)).filter
          (fun n2 => ! ((prevPairs.filter (fun p => ((prevPairs.map (fun q2 => q2.1)).filter (fun k3 => ! newKeys.contains k3)).contains p.1)).map (fun p => p.2)).contains n2)
        lastObj := .start
        existing := prevPairs.filter (fun p => ! ((prevPairs.map (fun q2 => q2.1)).filter (fun k3 => ! newKeys.contains k3)).contains p.1)
        objs := []
        addedKeys := []
        movedNodes := []
        fresh := fresh0 }
      k n hnd hkta hkmem hsurv hall
  refine ⟨?_, ?_, ?_⟩
  · show (newKeys.zip ((newKeys.foldl (eachStep (newKeys.filter (fun k2 => ! (prevPairs.map (fun p => p.1)).contains k2)))
      { dom := (prevPairs.map (fun p => p.2)).filter
          (fun n2 => ! ((prevPairs.filter (fun p => ((prevPairs.map (fun q2 => q2.1)).filter (fun k3 => ! newKeys.contains k3)).contains p.1)).map (fun p => p.2)).contains n2)
        lastObj := .start
        existing := prevPairs.filter (fun p => ! ((prevPairs.map (fun q2 => q2.1)).filter (fun k3 => ! newKeys.contains k3)).contains p.1)
        objs := []
        addedKeys := []
        movedNodes := []
        fresh := fresh0 }).objs)).lookup k = some (some n)
    rw [hdelta]
    simpa using hzip
  · show ((newKeys.foldl (eachStep (newKeys.filter (fun k2 => ! (prevPairs.map (fun p => p.1)).contains k2)))
      { dom := (prevPairs.map (fun p => p.2)).filter
          (fun n2 => ! ((prevPairs.filter (fun p => ((prevPairs.map (fun q2 => q2.1)).filter (fun k3 => ! newKeys.contains k3)).contains p.1)).map (fun p => p.2)).contains n2)
        lastObj := .start
        existing := prevPairs.filter (fun p => ! ((prevPairs.map (fun q2 => q2.1)).filter (fun k3 => ! newKeys.contains k3)).contains p.1)
        objs := []
        addedKeys := []
        movedNodes := []
        fresh := fresh0 }).addedKeys).contains k = false
    cases hc : ((newKeys.foldl (eachStep (newKeys.filter (fun k2 => ! (prevPairs.map (fun p => p.1)).contains k2)))
      { dom := (prevPairs.map (fun p => p.2)).filter
          (fun n2 => ! ((prevPairs.filter (fun p => ((prevPairs.map (fun q2 => q2.1)).filter (fun k3 => ! newKeys.contains k3)).contains p.1)).map (fun p => p.2)).contains n2)
        lastObj := .start
        existing := prevPairs.filter (fun p => ! ((prevPairs.map (fun q2 => q2.1)).filter (fun k3 => ! newKeys.contains k3)).contains p.1)
        objs := []
        addedKeys := []
        movedNodes := []
        fresh := fresh0 }).addedKeys).contains k
    · rfl
    · exfalso
      have hmem := List.elem_iff.mp hc
      cases eachWalk_addedKeys (newKeys.filter (fun k2 => ! (prevPairs.map (fun p => p.1)).contains k2)) newKeys
          { dom := (prevPairs.map (fun p => p.2)).filter
              (fun n2 => ! ((prevPairs.filter (fun p => ((prevPairs.map (fun q2 => q2.1)).filter (fun k3 => ! newKeys.contains k3)).contains p.1)).map (fun p => p.2)).contains n2)
            lastObj := .start
            existing := prevPairs.filter (fun p => ! ((prevPairs.map (fun q2 => q2.1)).filter (fun k3 => ! newKeys.contains k3)).contains p.1)
            objs := []
            addedKeys := []
            movedNodes := []
            fresh := fresh0 } k hmem with
      | inl h => exact List.not_mem_nil k h
      | inr h =>
          rw [hkta] at h
          cases h
  · show ∀ p ∈ prevPairs.filter (fun p => ((prevPairs.map (fun q2 => q2.1)).filter (fun k3 => ! newKeys.contains k3)).contains p.1), p.1 ≠ k
    intro p hp he
    rw [List.mem_filter] at hp
    have h2 := hp.2
    rw [he] at h2
    rw [h2] at hqk
    cases hqk

/-- C9 witness: previous pairs a↦0, b↦1, c↦2, new keys [a, c, b]; the
surviving key b keeps node 1, fires no add, and is in no removed pair. -/
theorem C9_node_identity_preserved_witness :
    (["a", "c", "b"] : List String).Nodup ∧
    ([("a", 0), ("b", 1), ("c", 2)] : List (String × Nat)).lookup "b" = some 1 ∧
    (["a", "c", "b"] : List String).contains "b" = true ∧
    ((["a", "c", "b"].zip (eachReconcile [("a", 0), ("b", 1), ("c", 2)] ["a", "c", "b"] 10).walk.objs).lookup "b" = some (some 1) ∧
     (eachReconcile [("a", 0), ("b", 1), ("c", 2)] ["a", "c", "b"] 10).walk.addedKeys.contains "b" = false ∧
     ∀ p ∈ (eachReconcile [("a", 0), ("b", 1), ("c", 2)] ["a", "c", "b"] 10).removedPairs, p.1 ≠ "b") :=
  ⟨by decide, by decide, by decide,
   C9_node_identity_preserved [("a", 0), ("b", 1), ("c", 2)] ["a", "c", "b"] 10 "b" 1
     (by decide) (by decide) (by decide)⟩

/-- In a duplicate-free list, the split around a fixed element is unique. -/
theorem nodup_split_unique :
    ∀ (A : List Nat) (p : Nat) (B l r : List Nat),
      (A ++ p :: B).Nodup → A ++ p :: B = l ++ p :: r → A = l ∧ B = r := by
  intro A
  induction A with
  | nil =>
      intro p B l r hnd he
      rw [List.nil_append] at hnd he
      cases l with
      | nil =>
          rw [List.nil_append] at he
          injection he with h1 h2
          exact ⟨rfl, h2⟩
      | cons x l2 =>
          rw [List.cons_append] at he
          injection he with h1 h2
          exfalso
          rw [List.nodup_cons] at hnd
          apply hnd.1
          rw [h2]
          exact List.mem_append_right l2 (List.mem_cons_self p r)
  | cons a A2 ih =>
      intro p B l r hnd he
      cases l with
      | nil =>
          rw [List.nil_append] at he
          rw [List.cons_append] at he
          injection he with h1 h2
          exfalso
          rw [List.cons_append, List.nodup_cons] at hnd
          apply hnd.1
          rw [h1]
          exact List.mem_append_right A2 (List.mem_cons_self p B)
      | cons x l2 =>
          rw [List.cons_append, List.cons_append] at he
          injection he with h1 h2
          rw [List.cons_append, List.nodup_cons] at hnd
          obtain ⟨hA, hB⟩ := ih p B l2 r hnd.2 h2
          constructor
          · rw [h1, hA]
          · exact hB

/-- In a duplicate-free list shaped `A ++ p :: M`, the element right after
`p` is the head of `M`, so no element of `M` sitting at position `j + 1`
can be right after `p`. -/
theorem nodup_not_after_head
    (A : List Nat) (p x : Nat) (M : List Nat)
    (hnd : (A ++ p :: M).Nodup)
    (hx : ∃ j, ∃ hj : j + 1 < M.length, M.get ⟨j + 1, hj⟩ = x) :
    ¬ ∃ l r, A ++ p :: M = l ++ p :: x :: r := by
  rintro ⟨l, r, he⟩
  obtain ⟨j, hj, hget⟩ := hx
  obtain ⟨hA, hM⟩ := nodup_split_unique A p M l (x :: r) hnd he
  have hndM : M.Nodup := (List.nodup_cons.mp (List.Nodup.of_append_right hnd)).2
  subst hM
  have hj2 : j < r.length := by
    rw [List.length_cons] at hj
    omega
  have hx2 : (x :: r).get ⟨j + 1, hj⟩ = r.get ⟨j, hj2⟩ := rfl
  rw [hx2] at hget
  rw [List.nodup_cons] at hndM
  apply hndM.1
  rw [← hget]
  exact List.get_mem r j hj2

/-- List-level core of the move condition: with the document order
`objs.filterMap id ++ ex.map snd` and the last-placed reference read off
`objs.getLast?`, a pending node at position `j + 1` of `ex` is not
immediately after the reference. -/
theorem not_after_aux
    (objs : List (Option Nat)) (ex : List (String × Nat)) (j : Nat)
    (hj : j + 1 < ex.length)
    (hnd : (objs.filterMap id ++ ex.map (fun p => p.2)).Nodup) :
    ¬ immediatelyAfter (objs.filterMap id ++ ex.map (fun p => p.2))
        (match objs.getLast? with
          | Option.none => NodeRef.start
          | some (some n2) => NodeRef.node n2
          | some Option.none => NodeRef.undefRef)
        ((ex.get ⟨j + 1, hj⟩).2) := by
  cases hg : objs.getLast? with
  | none =>
      have hobjs : objs = [] := List.getLast?_eq_none_iff.mp hg
      subst hobjs
      rw [List.filterMap_nil, List.nil_append] at hnd ⊢
      cases ex with
      | nil => simp at hj
      | cons e0 rest =>
          intro hcontra
          have hh : ((e0 :: rest).map (fun p => p.2)).head? = some (((e0 :: rest).get ⟨j + 1, hj⟩).2) := hcontra
          rw [List.map_cons, List.head?_cons] at hh
          injection hh with hh2
          have hj2 : j < rest.length := by
            rw [List.length_cons] at hj
            omega
          have hx2 : ((e0 :: rest).get ⟨j + 1, hj⟩).2 = (rest.get ⟨j, hj2⟩).2 := rfl
          rw [hx2] at hh2
          rw [List.map_cons] at hnd
          rw [List.nodup_cons] at hnd
          apply hnd.1
          rw [hh2]
          exact List.mem_map_of_mem (fun p => p.2) (List.get_mem rest j hj2)
  | some x =>
      cases x with
      | none =>
          intro hcontra
          exact hcontra
      | some p =>
          obtain ⟨front, hfr⟩ := List.getLast?_eq_some_iff.mp hg
          subst hfr
          intro hcontra
          obtain ⟨l, r, he⟩ := hcontra
          have he2 : front.filterMap id ++ p :: (ex.map (fun p2 => p2.2)) = l ++ p :: ((ex.get ⟨j + 1, hj⟩).2) :: r := by
            rw [← he]
            rw [List.filterMap_append]
            rw [List.append_assoc]
            rfl
          have hnd2 : (front.filterMap id ++ p :: (ex.map (fun p2 => p2.2))).Nodup := by
            rw [List.filterMap_append] at hnd
            rw [List.append_assoc] at hnd
            exact hnd
          have hmapget : ∃ j2, ∃ hj3 : j2 + 1 < (ex.map (fun p2 => p2.2)).length,
              (ex.map (fun p2 => p2.2)).get ⟨j2 + 1, hj3⟩ = (ex.get ⟨j + 1, hj⟩).2 := by
            refine ⟨j, by rw [List.length_map]; exact hj, ?_⟩
            simp
          exact nodup_not_after_head (front.filterMap id) p ((ex.get ⟨j + 1, hj⟩).2)
            (ex.map (fun p2 => p2.2)) hnd2 hmapget ⟨l, r, he2⟩

/-- Under the walk invariant, a pending existing node at position `i > 0`
is not immediately after the last-placed node, so the walk's move (taken
exactly when `indexOf > 0`) only relocates nodes that are out of place. -/
theorem moved_not_immediately_after
    (s : EachWalkState) (i : Nat) (hi : i < s.existing.length)
    (hinv : EachInv s) (hpos : 0 < i) :
    ¬ immediatelyAfter s.dom s.lastObj ((s.existing.get ⟨i, hi⟩).2) := by
  obtain ⟨hdom, hlast, hnd, _⟩ := hinv
  cases i with
  | zero => exact absurd hpos (by omega)
  | succ j =>
      rw [hdom, hlast]
      rw [hdom] at hnd
      exact not_after_aux s.objs s.existing j hi hnd

/-- C1 counterexample: with previous pairs a↦0, b↦1, c↦2 and target keys
[a, c, b], the single recorded move is node 2 — the node of key "c" — not
node 1, the node of key "b" as the spec asserts. -/
theorem C1_moved_node_counterexample :
    (eachReconcile [("a", 0), ("b", 1), ("c", 2)] ["a", "c", "b"] 10).walk.movedNodes = [2] ∧
    ([("a", 0), ("b", 1), ("c", 2)] : List (String × Nat)).lookup "c" = some 2 ∧
    ([("a", 0), ("b", 1), ("c", 2)] : List (String × Nat)).lookup "b" = some 1 ∧
    (2 : Nat) ≠ 1 := by
  refine ⟨by decide, by decide, by decide, by decide⟩

/-- C1 (corrected): on previous keys [a, b, c] and target keys [a, c, b]
the reconciler fires zero adds and zero removes and exactly one move, but
the relocated node is the one bound to key "c" (the walk reaches "c" while
"b"'s node still precedes it); and in general a step of the walk records a
node as moved only if that node is not already immediately after the
last-placed node. -/
theorem C1_reconciler_minimality :
    ((eachReconcile [("a", 0), ("b", 1), ("c", 2)] ["a", "c", "b"] 10).removedPairs = [] ∧
     (eachReconcile [("a", 0), ("b", 1), ("c", 2)] ["a", "c", "b"] 10).walk.addedKeys = [] ∧
     (eachReconcile [("a", 0), ("b", 1), ("c", 2)] ["a", "c", "b"] 10).walk.movedNodes = [2] ∧
     (eachReconcile [("a", 0), ("b", 1), ("c", 2)] ["a", "c", "b"] 10).walk.dom = [0, 2, 1]) ∧
    (∀ (kta : List String) (s : EachWalkState) (key : String), EachInv s →
      (eachStep kta s key).movedNodes = s.movedNodes ∨
      ∃ n2, (eachStep kta s key).movedNodes = s.movedNodes ++ [n2] ∧
        ¬ immediatelyAfter s.dom s.lastObj n2) := by
  refine ⟨⟨by decide, by decide, by decide, by decide⟩, ?_⟩
  intro kta s key hinv
  cases hc : kta.contains key with
  | true =>
      left
      rw [eachStep_add_eq kta s key hc]
  | false =>
      by_cases h2 : s.existing.findIdx (fun p => p.1 == key) < s.existing.length
      · by_cases h3 : 0 < s.existing.findIdx (fun p => p.1 == key)
        · right
          refine ⟨(s.existing.get ⟨s.existing.findIdx (fun p => p.1 == key), h2⟩).2, ?_, ?_⟩
          · rw [eachStep_reuse_eq kta s key hc h2]
            show (if 0 < s.existing.findIdx (fun p => p.1 == key) then s.movedNodes ++ [(s.existing.get ⟨s.existing.findIdx (fun p => p.1 == key), h2⟩).2] else s.movedNodes) = _
            rw [if_pos h3]
          · exact moved_not_immediately_after s (s.existing.findIdx (fun p => p.1 == key)) h2 hinv h3
        · left
          rw [eachStep_reuse_eq kta s key hc h2]
          show (if 0 < s.existing.findIdx (fun p => p.1 == key) then s.movedNodes ++ [(s.existing.get ⟨s.existing.findIdx (fun p => p.1 == key), h2⟩).2] else s.movedNodes) = _
          rw [if_neg h3]
      · left
        rw [eachStep_unfound_eq kta s key hc h2]

/-- C1 witness: the move-only-if-out-of-place clause applied to the
concrete mid-walk state reached after placing node 0 ("a" done, pairs for
"b" and "c" pending) and stepping on key "c". -/
theorem C1_reconciler_minimality_witness :
    EachInv ⟨[0, 1, 2], .node 0, [("b", 1), ("c", 2)], [some 0], [], [], 10⟩ ∧
    ((eachStep [] ⟨[0, 1, 2], .node 0, [("b", 1), ("c", 2)], [some 0], [], [], 10⟩ "c").movedNodes = [] ∨
     ∃ n2, (eachStep [] ⟨[0, 1, 2], .node 0, [("b", 1), ("c", 2)], [some 0], [], [], 10⟩ "c").movedNodes = [] ++ [n2] ∧
       ¬ immediatelyAfter [0, 1, 2] (.node 0) n2) :=
  ⟨by unfold EachInv; decide,
   C1_reconciler_minimality.2 [] ⟨[0, 1, 2], .node 0, [("b", 1), ("c", 2)], [some 0], [], [], 10⟩ "c"
     (by unfold EachInv; decide)⟩

end JSBinder
